import Mathlib

/-
Shallow embedding of the RPC correlation layer of `RabbitMQService`
(src/infrastructure/queue, class RabbitMQService) from the
notification-service-node repository.

Modelling conventions:
* Parsed JSON payloads are abstracted as `String` values; a raw message body
  either parses to such a value or is malformed (`Raw`).
* JavaScript promises are identified by a request index (`Nat`).  Calling the
  stored `resolve`/`reject` callbacks of request `r` is recorded by appending a
  `Settlement` for `r` to an observation log.  The fields `settled`,
  `published`, `sentToQueue`, `requests` and `now` of `RMQState` are such
  observation logs / ghost state; the fields `channel`, `connection`,
  `replyQueue`, `pendingRPCRequests`, `timers` model the mutable state of the
  class (`timers` is the set of `setTimeout` handles currently scheduled).
* `setTimeout(cb, T)` at time `n` creates a timer with deadline `n + T`; the
  runtime may run it at any time `≥` its deadline (`fireTimer` is guarded).
* Transport-level failure of `channel.publish` is an external nondeterministic
  input (`pubOk`); the rejection handler attached with `.catch` in `sendRPC`
  runs before any timer can fire (it is a microtask), so it is executed
  synchronously in the model.
-/

namespace RMQ

/-- Abstract JSON body: `ok v` parses to the value `v`, `malformed` makes
`JSON.parse` throw. -/
inductive Raw where
  | ok (v : String)
  | malformed
deriving DecidableEq, Repr

/-- Model of `JSON.parse` on an abstract body. -/
def jsonParse : Raw → Option String
  | .ok v => some v
  | .malformed => none

/-- JavaScript truthiness of an optional string (`undefined` and `""` are
falsy). -/
def truthyStr : Option String → Bool
  | some s => s ≠ ""
  | none => false

/-- JavaScript truthiness of an optional number (`undefined` and `0` are
falsy). -/
def truthyNat : Option Nat → Bool
  | some n => n ≠ 0
  | none => false

/-- The `config.rabbitmq` values used by the service. -/
structure Config where
  exchange : String
  routingKey : String
  queue : String
deriving DecidableEq, Repr

/-- Interface `RPCOptions` of the source. -/
structure RPCOptions where
  timeout : Option Nat := none
  correlationId : Option String := none
deriving DecidableEq, Repr

/-- Interface `PublishOptions` of the source. -/
structure PublishOptions where
  replyTo : Option String := none
  correlationId : Option String := none
  persistent : Option Bool := none
  expiration : Option String := none
deriving DecidableEq, Repr

/-- The errors the service can produce.  `message` below gives the exact
`Error` message strings of the source. -/
inductive RMQError where
  | notInitializedRPC
  | channelNotInitialized
  | rpcTimeout (ms : Nat)
  | replyParse
  | publishFailed
  | connectionClosed
  | channelCloseFailed
  | connectionCloseFailed
deriving DecidableEq, Repr

/-- The message carried by each `Error` in the source (transport errors keep
whatever message the driver produced; we use a fixed placeholder). -/
def RMQError.message : RMQError → String
  | .notInitializedRPC => "RabbitMQ not properly initialized for RPC"
  | .channelNotInitialized => "RabbitMQ channel not initialized"
  | .rpcTimeout ms => "RPC timeout after " ++ toString ms ++ "ms"
  | .replyParse => "Failed to parse RPC reply"
  | .publishFailed => "publish failed"
  | .connectionClosed => "RabbitMQ connection closed"
  | .channelCloseFailed => "channel close failed"
  | .connectionCloseFailed => "connection close failed"

/-- How a promise was settled. -/
inductive Outcome where
  | resolved (v : String)
  | rejected (e : RMQError)
deriving DecidableEq, Repr

/-- One invocation of a pending request's `resolve` or `reject` callback
(ghost observation): which request, under which correlation id it was
registered/settled, the outcome, and the time of the invocation. -/
structure Settlement where
  reqIdx : Nat
  corrId : String
  outcome : Outcome
  time : Nat
deriving DecidableEq, Repr

/-- The value type of the `pendingRPCRequests` map: the stored
`resolve`/`reject` pair is identified by the request index of the promise they
settle, `timerId` models the stored `timeoutId`. -/
structure PendingEntry where
  reqIdx : Nat
  timerId : Nat
deriving DecidableEq, Repr

/-- A scheduled `setTimeout` callback created in `sendRPC`: it closes over the
correlation id, the timeout value and the `reject` of its own promise. -/
structure Timer where
  id : Nat
  reqIdx : Nat
  corrId : String
  timeout : Nat
  deadline : Nat
deriving DecidableEq, Repr

/-- A message put on the wire by `channel.publish`. -/
structure PublishedMsg where
  exchange : String
  routingKey : String
  body : String
  replyTo : Option String
  correlationId : Option String
  expiration : Option String
  persistent : Bool
deriving DecidableEq, Repr

/-- A message put on the wire by `channel.sendToQueue` (used by
`sendRPCReply`; such a message carries a correlation id and no `replyTo`). -/
structure SentReply where
  queue : String
  correlationId : String
  body : String
deriving DecidableEq, Repr

/-- Ghost record of one `sendRPC` registration: request index, effective
correlation id, effective timeout and registration time. -/
structure RequestRec where
  reqIdx : Nat
  corrId : String
  timeout : Nat
  createdAt : Nat
deriving DecidableEq, Repr

abbrev PendingMap := List (String × PendingEntry)

/-- `Map.get` of the JS `Map` holding pending requests. -/
def mapGet : PendingMap → String → Option PendingEntry
  | [], _ => none
  | p :: rest, k => if p.1 = k then some p.2 else mapGet rest k

/-- `Map.set`: replaces the entry in place when the key is present, otherwise
appends. -/
def mapSet : PendingMap → String → PendingEntry → PendingMap
  | [], k, v => [(k, v)]
  | p :: rest, k, v => if p.1 = k then (k, v) :: rest else p :: mapSet rest k v

/-- `Map.delete`. -/
def mapDelete : PendingMap → String → PendingMap
  | [], _ => []
  | p :: rest, k => if p.1 = k then mapDelete rest k else p :: mapDelete rest k

/-- `clearTimeout`: deactivates the timer with the given handle. -/
def clearTimeout (timers : List Timer) (tid : Nat) : List Timer :=
  timers.filter (fun t => t.id ≠ tid)

/-- State of one `RabbitMQService` instance (plus ghost observation logs, see
the header comment). -/
structure RMQState where
  channel : Bool
  connection : Bool
  replyQueue : Option String
  pendingRPCRequests : PendingMap
  timers : List Timer
  nextTimerId : Nat
  nextReqIdx : Nat
  settled : List Settlement
  published : List PublishedMsg
  sentToQueue : List SentReply
  requests : List RequestRec
  now : Nat
deriving DecidableEq, Repr

/-- Invoke the stored `resolve`/`reject` of request `r` (ghost append). -/
def settlePromise (s : RMQState) (r : Nat) (cid : String) (out : Outcome) : RMQState :=
  { s with settled := s.settled ++ [⟨r, cid, out, s.now⟩] }

/-- The state right after a successful `connect()`: channel and connection
established, reply queue `rq` asserted and consumed from, no pending
requests. -/
def connectedState (rq : String) : RMQState where
  channel := true
  connection := true
  replyQueue := some rq
  pendingRPCRequests := []
  timers := []
  nextTimerId := 0
  nextReqIdx := 0
  settled := []
  published := []
  sentToQueue := []
  requests := []
  now := 0

/-- `handleRPCReply(msg)`: the reply-queue consumer callback.  A missing (or
falsy) correlation id is only warned about; an unknown correlation id is
silently ignored; otherwise the entry's timer is cleared, the entry removed,
and the promise resolved with the parsed body or rejected with a parse
error. -/
def handleRPCReply (s : RMQState) (correlationId : Option String) (content : Raw) : RMQState :=
  if !truthyStr correlationId then s
  else
    let cid := correlationId.getD ""
    match mapGet s.pendingRPCRequests cid with
    | none => s
    | some pendingRequest =>
      let s' := { s with
        timers := clearTimeout s.timers pendingRequest.timerId,
        pendingRPCRequests := mapDelete s.pendingRPCRequests cid }
      match jsonParse content with
      | some v => settlePromise s' pendingRequest.reqIdx cid (.resolved v)
      | none => settlePromise s' pendingRequest.reqIdx cid (.rejected .replyParse)

/-- `publish(queue, message, options?)`.  Note that the source publishes to
`config.rabbitmq.exchange` with `config.rabbitmq.routingKey`; the `queue`
argument is not used.  Options are attached only when truthy; `persistent`
defaults to `true`. -/
def publish (cfg : Config) (s : RMQState) (queue : String) (body : String)
    (options : PublishOptions) : Except RMQError RMQState :=
  if !s.channel then .error .channelNotInitialized
  else
    .ok { s with published := s.published ++ [{
      exchange := cfg.exchange
      routingKey := cfg.routingKey
      body := body
      replyTo := if truthyStr options.replyTo then options.replyTo else none
      correlationId := if truthyStr options.correlationId then options.correlationId else none
      expiration := if truthyStr options.expiration then options.expiration else none
      persistent := options.persistent.getD true }] }

/-- The effective correlation id of `sendRPC`:
`options?.correlationId || randomUUID()`. -/
def effectiveCorrelationId (o : Option String) (fresh : String) : String :=
  if truthyStr o then o.getD "" else fresh

/-- The effective timeout of `sendRPC`: `options?.timeout || 30000`. -/
def effectiveTimeout (o : Option Nat) : Nat :=
  if truthyNat o then (o.getD 0) else 30000

/-- `sendRPC(queue, message, options?)`.  `fresh` is the value `randomUUID()`
would return, `pubOk` is whether the transport-level publish succeeds.  The
returned `Nat` is the request index of the promise handed to the caller.
Mirrors the source: initialization check, effective correlation id and
timeout, `setTimeout`, registration in `pendingRPCRequests`, `publish` with
`replyTo`/`correlationId`/`expiration`, and the `.catch` cleanup (clear the
timer, delete the entry, reject with the publish error). -/
def sendRPC (cfg : Config) (s : RMQState) (queue : String) (body : String)
    (options : RPCOptions) (fresh : String) (pubOk : Bool) :
    Except RMQError (RMQState × Nat) :=
  if !s.channel || !truthyStr s.replyQueue then .error .notInitializedRPC
  else
    let correlationId := effectiveCorrelationId options.correlationId fresh
    let timeout := effectiveTimeout options.timeout
    let r := s.nextReqIdx
    let tid := s.nextTimerId
    let s1 : RMQState := { s with
      nextReqIdx := r + 1
      nextTimerId := tid + 1
      timers := s.timers ++ [⟨tid, r, correlationId, timeout, s.now + timeout⟩]
      pendingRPCRequests := mapSet s.pendingRPCRequests correlationId ⟨r, tid⟩
      requests := s.requests ++ [⟨r, correlationId, timeout, s.now⟩] }
    match (if pubOk then
            publish cfg s1 queue body
              { replyTo := s1.replyQueue, correlationId := some correlationId,
                expiration := some (toString timeout) }
           else .error .publishFailed) with
    | .ok s2 => .ok (s2, r)
    | .error err =>
      .ok (settlePromise
        { s1 with
          timers := clearTimeout s1.timers tid,
          pendingRPCRequests := mapDelete s1.pendingRPCRequests correlationId }
        r correlationId (.rejected err), r)

/-- The `setTimeout` callback scheduled by `sendRPC` runs: only possible for a
still-scheduled handle whose deadline has been reached.  It deletes the map
entry under its correlation id and rejects its own promise with the RPC
timeout error. -/
def fireTimer (s : RMQState) (tid : Nat) : RMQState :=
  match s.timers.find? (fun t => t.id = tid) with
  | none => s
  | some t =>
    if t.deadline ≤ s.now then
      settlePromise
        { s with
          timers := clearTimeout s.timers tid,
          pendingRPCRequests := mapDelete s.pendingRPCRequests t.corrId }
        t.reqIdx t.corrId (.rejected (.rpcTimeout t.timeout))
    else s

/-- One iteration of the `for (const [correlationId, request] of
this.pendingRPCRequests)` loop in `close()`. -/
def drainStep (st : RMQState) (p : String × PendingEntry) : RMQState :=
  settlePromise { st with timers := clearTimeout st.timers p.2.timerId }
    p.2.reqIdx p.1 (.rejected .connectionClosed)

/-- `close()`: drains all pending requests (clearing each timer and rejecting
with the connection-closed error), clears the map, then awaits
`channel?.close()` and `connection?.close()` (each of which may itself fail:
`chanFail`/`connFail`), and finally resets the three handle fields.  The
second component is the error `close()` propagates, if any. -/
def close (s : RMQState) (chanFail connFail : Bool) : RMQState × Option RMQError :=
  let s1 := s.pendingRPCRequests.foldl drainStep s
  let s1 := { s1 with pendingRPCRequests := [] }
  if s.channel && chanFail then (s1, some .channelCloseFailed)
  else if s.connection && connFail then (s1, some .connectionCloseFailed)
  else ({ s1 with channel := false, connection := false, replyQueue := none }, none)

/-- `sendRPCReply(replyTo, correlationId, response)`: `sendToQueue` with only
the correlation id attached. -/
def sendRPCReply (s : RMQState) (replyTo correlationId body : String) :
    Except RMQError RMQState :=
  if !s.channel then .error .channelNotInitialized
  else .ok { s with sentToQueue := s.sentToQueue ++ [⟨replyTo, correlationId, body⟩] }

/-- A raw message delivered to the consumer attached by `consume`. -/
structure InboundMsg where
  content : Raw
  replyTo : Option String
  correlationId : Option String
  timestamp : Option Nat
deriving DecidableEq, Repr

/-- The `reply` helper of the `MessageContext` built in `consume`: publishes
via `sendRPCReply` only when the message's own `replyTo` and `correlationId`
are both (truthy and) present, otherwise silently does nothing. -/
def contextReply (s : RMQState) (msg : InboundMsg) (response : String) :
    Except RMQError RMQState :=
  if truthyStr msg.replyTo && truthyStr msg.correlationId then
    sendRPCReply s (msg.replyTo.getD "") (msg.correlationId.getD "") response
  else .ok s

/-- What the consumer's handler does with one message: the sequence of
payloads it passes to `context.reply`, and whether it then returns normally
(`ok = true`) or throws (`ok = false`). -/
structure HandlerScript where
  replies : List String
  ok : Bool
deriving DecidableEq, Repr

/-- Run the handler's `context.reply` calls in order; a throwing call aborts
the handler (the state keeps the replies already sent). -/
def runReplies (msg : InboundMsg) : RMQState → List String → RMQState × Option RMQError
  | s, [] => (s, none)
  | s, response :: rest =>
    match contextReply s msg response with
    | .ok s' => runReplies msg s' rest
    | .error e => (s, some e)

/-- The broker acknowledgement performed for one consumed message:
`channel.ack(msg)` or `channel.nack(msg, allUpTo, requeue)`. -/
inductive AckAction where
  | ack
  | nack (allUpTo requeue : Bool)
deriving DecidableEq, Repr

/-- The per-message callback registered by `consume(queue, handler)`: parse
the body, build the context, run the handler, `ack` on success; any throw
(parse failure, a throwing `reply`, or the handler itself throwing) is caught
and answered with `nack(msg, false, false)`. -/
def processMessage (s : RMQState) (msg : InboundMsg) (script : HandlerScript) :
    RMQState × AckAction :=
  match jsonParse msg.content with
  | none => (s, .nack false false)
  | some _payload =>
    match runReplies msg s script.replies with
    | (s', none) => if script.ok then (s', .ack) else (s', .nack false false)
    | (s', some _e) => (s', .nack false false)

/-- The externally triggered events driving one service instance. -/
inductive Event where
  | send (queue body : String) (options : RPCOptions) (fresh : String) (pubOk : Bool)
  | deliver (correlationId : Option String) (content : Raw)
  | fire (tid : Nat)
  | tick (d : Nat)
  | closeEv (chanFail connFail : Bool)
deriving DecidableEq, Repr

/-- Interpret one event.  A `send` that throws leaves the state unchanged (the
check precedes every mutation in the source). -/
def step (cfg : Config) (s : RMQState) : Event → RMQState
  | .send q b o f p =>
    match sendRPC cfg s q b o f p with
    | .ok (s', _) => s'
    | .error _ => s
  | .deliver c r => handleRPCReply s c r
  | .fire tid => fireTimer s tid
  | .tick d => { s with now := s.now + d }
  | .closeEv cf nf => (close s cf nf).1

/-- Run a list of events. -/
def run (cfg : Config) (s : RMQState) (es : List Event) : RMQState :=
  es.foldl (step cfg) s

/-- A `send` event does not register under a correlation id that is currently
pending (the generation policy the spec assumes). -/
def sendFreshCid (s : RMQState) : Event → Bool
  | .send _ _ o f _ =>
    (mapGet s.pendingRPCRequests (effectiveCorrelationId o.correlationId f)).isNone
  | _ => true

/-- A trace whose registrations all use fresh (not currently pending)
correlation ids. -/
def goodTrace (cfg : Config) (s : RMQState) : List Event → Bool
  | [] => true
  | e :: es => sendFreshCid s e && goodTrace cfg (step cfg s e) es

end RMQ

namespace RMQ

/-- Sample broker configuration used by concrete scenarios. -/
def sampleCfg : Config := ⟨"app-exchange", "emails", "emails-q"⟩

/-- Sample post-`connect()` state used by concrete scenarios. -/
def sampleReady : RMQState := connectedState "amq.gen-rq"

/-- Every scheduled timer handle is still referenced by some pending entry
(no orphan timers). -/
def NoOrphan (s : RMQState) : Prop :=
  ∀ t ∈ s.timers, ∃ p ∈ s.pendingRPCRequests, p.2.timerId = t.id

/-- The structural well-formedness of a service state that the operations
preserve: uniqueness of identifiers, the links between pending entries,
their timers, the registration log and the settlement log, and freshness of
the counters. -/
structure Inv (s : RMQState) : Prop where
  settledNodup : (s.settled.map Settlement.reqIdx).Nodup
  timersIdNodup : (s.timers.map Timer.id).Nodup
  timersReqNodup : (s.timers.map Timer.reqIdx).Nodup
  pendingKeyNodup : (s.pendingRPCRequests.map Prod.fst).Nodup
  requestsNodup : (s.requests.map RequestRec.reqIdx).Nodup
  timerUnsettled : ∀ t ∈ s.timers, ∀ stl ∈ s.settled, stl.reqIdx ≠ t.reqIdx
  pendingTimer : ∀ p ∈ s.pendingRPCRequests, ∃ t ∈ s.timers,
    t.id = p.2.timerId ∧ t.reqIdx = p.2.reqIdx ∧ t.corrId = p.1
  timerReq : ∀ t ∈ s.timers, ∃ q ∈ s.requests, q.reqIdx = t.reqIdx ∧
    q.corrId = t.corrId ∧ q.timeout = t.timeout ∧ t.deadline = q.createdAt + q.timeout
  settledReq : ∀ stl ∈ s.settled, ∃ q ∈ s.requests,
    q.reqIdx = stl.reqIdx ∧ q.corrId = stl.corrId
  timerIdLt : ∀ t ∈ s.timers, t.id < s.nextTimerId
  timerReqLt : ∀ t ∈ s.timers, t.reqIdx < s.nextReqIdx
  settledLt : ∀ stl ∈ s.settled, stl.reqIdx < s.nextReqIdx
  requestsLt : ∀ q ∈ s.requests, q.reqIdx < s.nextReqIdx

/-- The state reached by `close()` after the drain loop and `clear()`, before
the two resource-release awaits. -/
def drainedState (s : RMQState) : RMQState :=
  { s.pendingRPCRequests.foldl drainStep s with pendingRPCRequests := [] }

/-- The state after one `sendRPC` registration under the explicit correlation
id "X" from the sample Ready state (used by concrete scenarios). -/
def dupState1 : RMQState :=
  run sampleCfg sampleReady [.send "q" "m1" ⟨none, some "X"⟩ "u0" true]

/-- Events that neither deliver a reply for correlation id `c`, nor register
another request under `c`, nor close the service (the environment of the
timeout scenario: the request's reply simply never arrives). -/
def avoids (c : String) : Event → Bool
  | .deliver c' _ => !(c' = some c)
  | .closeEv _ _ => false
  | .send _ _ o f _ => !(effectiveCorrelationId o.correlationId f = c)
  | _ => true

/-- The waiting phase of one RPC request: its entry is registered under `c`,
its timer (handle `tid`, timeout `T`, deadline `dl`) is scheduled, its
promise is unsettled, and no other scheduled timer carries `c`. -/
def PhaseA (c : String) (r tid T dl : Nat) (sf : RMQState) : Prop :=
  mapGet sf.pendingRPCRequests c = some ⟨r, tid⟩ ∧
  (⟨tid, r, c, T, dl⟩ : Timer) ∈ sf.timers ∧
  (∀ stl ∈ sf.settled, stl.reqIdx ≠ r) ∧
  (∀ t ∈ sf.timers, t.corrId = c → t = ⟨tid, r, c, T, dl⟩)

/-- The timed-out phase of one RPC request: its entry has been removed, no
scheduled timer carries `c` any more, and its promise was rejected with the
RPC-timeout error at some time `tm` no earlier than the deadline `dl`. -/
def PhaseB (c : String) (r T dl : Nat) (sf : RMQState) : Prop :=
  mapGet sf.pendingRPCRequests c = none ∧
  (∀ t ∈ sf.timers, t.corrId ≠ c) ∧
  ∃ tm, (⟨r, c, .rejected (.rpcTimeout T), tm⟩ : Settlement) ∈ sf.settled ∧ dl ≤ tm

/-- The state produced by the `sendRPC` call of the concrete timeout
scenario (correlation id "X", timeout 5). -/
def c3S1 : RMQState :=
  match sendRPC sampleCfg (connectedState "rq") "q" "m" ⟨some 5, some "X"⟩ "u" true with
  | .ok (s', _) => s'
  | .error _ => connectedState "rq"

/-- A concrete trace with a single registration under correlation id "A". -/
def traceA : List Event := [.send "q" "m" ⟨none, some "A"⟩ "u0" true]

/-- A concrete trace: requests registered in the order "B", "A"; the reply
for "A" arrives first, then the reply for "B". -/
def traceBA : List Event :=
  [.send "q" "m1" ⟨none, some "B"⟩ "u0" true,
   .send "q" "m2" ⟨none, some "A"⟩ "u1" true,
   .deliver (some "A") (.ok "ra"),
   .deliver (some "B") (.ok "rb")]

end RMQ

namespace RMQ

theorem mapGet_eq_some_mem {m : PendingMap} {k : String} {v : PendingEntry}
    (h : mapGet m k = some v) : (k, v) ∈ m := by
  induction m with
  | nil => simp [mapGet] at h
  | cons p rest ih =>
    by_cases hk : p.1 = k
    · simp only [mapGet, if_pos hk, Option.some.injEq] at h
      subst h
      subst hk
      rw [Prod.mk.eta]
      exact List.mem_cons_self _ _
    · simp only [mapGet, if_neg hk] at h
      exact List.mem_cons_of_mem _ (ih h)

theorem mapGet_eq_none_iff {m : PendingMap} {k : String} :
    mapGet m k = none ↔ ∀ p ∈ m, p.1 ≠ k := by
  induction m with
  | nil => simp [mapGet]
  | cons p rest ih =>
    by_cases hk : p.1 = k <;> simp [mapGet, hk, ih]

theorem mem_mapSet {m : PendingMap} {k : String} {v : PendingEntry} {p : String × PendingEntry}
    (h : p ∈ mapSet m k v) : p = (k, v) ∨ p ∈ m := by
  induction m with
  | nil => simpa [mapSet] using h
  | cons q rest ih =>
    by_cases hk : q.1 = k
    · simp only [mapSet, if_pos hk, List.mem_cons] at h
      rcases h with h | h
      · exact Or.inl h
      · exact Or.inr (List.mem_cons_of_mem _ h)
    · simp only [mapSet, if_neg hk, List.mem_cons] at h
      rcases h with h | h
      · exact Or.inr (by simp [h])
      · rcases ih h with h' | h'
        · exact Or.inl h'
        · exact Or.inr (List.mem_cons_of_mem _ h')

theorem keys_mapSet (m : PendingMap) (k : String) (v : PendingEntry) :
    (mapSet m k v).map Prod.fst =
      if (mapGet m k).isSome then m.map Prod.fst else m.map Prod.fst ++ [k] := by
  induction m with
  | nil => simp [mapSet, mapGet]
  | cons q rest ih =>
    by_cases hk : q.1 = k
    · simp [mapSet, mapGet, hk]
    · simp only [mapSet, if_neg hk, mapGet, List.map_cons, ih]
      by_cases h2 : (mapGet rest k).isSome <;> simp [h2]

theorem mapGet_mapSet_self (m : PendingMap) (k : String) (v : PendingEntry) :
    mapGet (mapSet m k v) k = some v := by
  induction m with
  | nil => simp [mapSet, mapGet]
  | cons q rest ih =>
    by_cases hk : q.1 = k <;> simp [mapSet, mapGet, hk, ih]

theorem mapGet_mapSet_ne (m : PendingMap) {k k' : String} (v : PendingEntry)
    (h : k' ≠ k) : mapGet (mapSet m k v) k' = mapGet m k' := by
  have hkk : k ≠ k' := fun hh => h hh.symm
  induction m with
  | nil => simp [mapSet, mapGet, hkk]
  | cons q rest ih =>
    by_cases hk : q.1 = k
    · have hq : q.1 ≠ k' := by rw [hk]; exact hkk
      simp [mapSet, hk, mapGet, hkk, hq, ih]
    · simp [mapSet, hk, mapGet, ih]

theorem mem_mapDelete {m : PendingMap} {k : String} {p : String × PendingEntry} :
    p ∈ mapDelete m k ↔ p ∈ m ∧ p.1 ≠ k := by
  induction m with
  | nil => simp [mapDelete]
  | cons q rest ih =>
    by_cases hk : q.1 = k
    · simp only [mapDelete, if_pos hk, ih, List.mem_cons]
      constructor
      · rintro ⟨h1, h2⟩
        exact ⟨Or.inr h1, h2⟩
      · rintro ⟨h1 | h1, h2⟩
        · subst h1
          exact absurd hk h2
        · exact ⟨h1, h2⟩
    · simp only [mapDelete, if_neg hk, List.mem_cons, ih]
      constructor
      · rintro (rfl | ⟨h1, h2⟩)
        · exact ⟨Or.inl rfl, hk⟩
        · exact ⟨Or.inr h1, h2⟩
      · rintro ⟨h1 | h1, h2⟩
        · exact Or.inl h1
        · exact Or.inr ⟨h1, h2⟩

theorem mapGet_mapDelete_self (m : PendingMap) (k : String) :
    mapGet (mapDelete m k) k = none := by
  rw [mapGet_eq_none_iff]
  intro p hp
  exact (mem_mapDelete.1 hp).2

theorem mapGet_mapDelete_ne (m : PendingMap) {k k' : String} (h : k' ≠ k) :
    mapGet (mapDelete m k) k' = mapGet m k' := by
  induction m with
  | nil => simp [mapDelete]
  | cons q rest ih =>
    by_cases hk : q.1 = k
    · have hkk : k ≠ k' := fun hh => h hh.symm
      have hq : q.1 ≠ k' := by rw [hk]; exact hkk
      simp [mapDelete, hk, mapGet, hq, hkk, ih]
    · simp [mapDelete, hk, mapGet, ih]

theorem mapDelete_of_get_none {m : PendingMap} {k : String}
    (h : mapGet m k = none) : mapDelete m k = m := by
  induction m with
  | nil => rfl
  | cons q rest ih =>
    by_cases hk : q.1 = k
    · simp [mapGet, hk] at h
    · simp only [mapGet, if_neg hk] at h
      rw [mapDelete, if_neg hk, ih h]

theorem keys_mapDelete_nodup {m : PendingMap} {k : String}
    (h : (m.map Prod.fst).Nodup) : ((mapDelete m k).map Prod.fst).Nodup := by
  induction m with
  | nil => simp [mapDelete]
  | cons q rest ih =>
    simp only [List.map_cons, List.nodup_cons] at h
    by_cases hk : q.1 = k
    · rw [mapDelete, if_pos hk]
      exact ih h.2
    · rw [mapDelete, if_neg hk, List.map_cons, List.nodup_cons]
      refine ⟨fun hmem => ?_, ih h.2⟩
      rw [List.mem_map] at hmem
      obtain ⟨p, hp, hpk⟩ := hmem
      exact h.1 (List.mem_map.2 ⟨p, (mem_mapDelete.1 hp).1, hpk⟩)

theorem mem_clearTimeout {ts : List Timer} {tid : Nat} {t : Timer} :
    t ∈ clearTimeout ts tid ↔ t ∈ ts ∧ t.id ≠ tid := by
  simp [clearTimeout, List.mem_filter]

theorem clearTimeout_of_not_mem {ts : List Timer} {tid : Nat}
    (h : ∀ t ∈ ts, t.id ≠ tid) : clearTimeout ts tid = ts := by
  unfold clearTimeout
  rw [List.filter_eq_self]
  intro t ht
  simpa using h t ht

theorem clearTimeout_sublist (ts : List Timer) (tid : Nat) :
    List.Sublist (clearTimeout ts tid) ts :=
  List.filter_sublist ts

theorem mapDelete_mapSet_of_get_none {m : PendingMap} {k : String} (v : PendingEntry)
    (h : mapGet m k = none) : mapDelete (mapSet m k v) k = m := by
  induction m with
  | nil => simp [mapSet, mapDelete]
  | cons q rest ih =>
    by_cases hk : q.1 = k
    · simp [mapGet, hk] at h
    · simp only [mapGet, if_neg hk] at h
      rw [mapSet, if_neg hk, mapDelete, if_neg hk, ih h]

theorem drain_foldl_fields (l : List (String × PendingEntry)) (st : RMQState) :
    (l.foldl drainStep st).channel = st.channel ∧
    (l.foldl drainStep st).connection = st.connection ∧
    (l.foldl drainStep st).replyQueue = st.replyQueue ∧
    (l.foldl drainStep st).pendingRPCRequests = st.pendingRPCRequests ∧
    (l.foldl drainStep st).nextTimerId = st.nextTimerId ∧
    (l.foldl drainStep st).nextReqIdx = st.nextReqIdx ∧
    (l.foldl drainStep st).published = st.published ∧
    (l.foldl drainStep st).sentToQueue = st.sentToQueue ∧
    (l.foldl drainStep st).requests = st.requests ∧
    (l.foldl drainStep st).now = st.now := by
  induction l generalizing st with
  | nil => simp
  | cons p rest ih =>
    rw [List.foldl_cons]
    have h := ih (drainStep st p)
    simpa [drainStep, settlePromise] using h

theorem drain_foldl_settled (l : List (String × PendingEntry)) (st : RMQState) :
    (l.foldl drainStep st).settled = st.settled ++
      l.map (fun p => (⟨p.2.reqIdx, p.1, .rejected .connectionClosed, st.now⟩ : Settlement)) := by
  induction l generalizing st with
  | nil => simp
  | cons p rest ih =>
    rw [List.foldl_cons, ih]
    simp [drainStep, settlePromise]

theorem mem_drain_foldl_timers (l : List (String × PendingEntry)) (st : RMQState) (t : Timer) :
    t ∈ (l.foldl drainStep st).timers ↔
      t ∈ st.timers ∧ ∀ p ∈ l, t.id ≠ p.2.timerId := by
  induction l generalizing st with
  | nil => simp
  | cons p rest ih =>
    rw [List.foldl_cons, ih]
    simp only [drainStep, settlePromise, mem_clearTimeout, List.forall_mem_cons]
    tauto

theorem drain_foldl_timers_sublist (l : List (String × PendingEntry)) (st : RMQState) :
    List.Sublist (l.foldl drainStep st).timers st.timers := by
  induction l generalizing st with
  | nil => exact List.Sublist.refl _
  | cons p rest ih =>
    rw [List.foldl_cons]
    refine (ih (drainStep st p)).trans ?_
    simpa [drainStep, settlePromise] using clearTimeout_sublist st.timers p.2.timerId

theorem close_eq (s : RMQState) (cf nf : Bool) :
    close s cf nf =
      if s.channel && cf then (drainedState s, some .channelCloseFailed)
      else if s.connection && nf then (drainedState s, some .connectionCloseFailed)
      else ({ drainedState s with channel := false, connection := false, replyQueue := none },
            none) :=
  rfl

theorem drainedState_settled (s : RMQState) :
    (drainedState s).settled = s.settled ++ s.pendingRPCRequests.map
      (fun p => (⟨p.2.reqIdx, p.1, .rejected .connectionClosed, s.now⟩ : Settlement)) := by
  simpa [drainedState] using drain_foldl_settled s.pendingRPCRequests s

theorem mem_drainedState_timers {s : RMQState} {t : Timer} :
    t ∈ (drainedState s).timers ↔
      t ∈ s.timers ∧ ∀ p ∈ s.pendingRPCRequests, t.id ≠ p.2.timerId := by
  simpa [drainedState] using mem_drain_foldl_timers s.pendingRPCRequests s t

theorem drainedState_timers_sublist (s : RMQState) :
    List.Sublist (drainedState s).timers s.timers := by
  simpa [drainedState] using drain_foldl_timers_sublist s.pendingRPCRequests s

theorem drainedState_fields (s : RMQState) :
    (drainedState s).channel = s.channel ∧
    (drainedState s).connection = s.connection ∧
    (drainedState s).replyQueue = s.replyQueue ∧
    (drainedState s).pendingRPCRequests = [] ∧
    (drainedState s).nextTimerId = s.nextTimerId ∧
    (drainedState s).nextReqIdx = s.nextReqIdx ∧
    (drainedState s).published = s.published ∧
    (drainedState s).sentToQueue = s.sentToQueue ∧
    (drainedState s).requests = s.requests ∧
    (drainedState s).now = s.now := by
  have h := drain_foldl_fields s.pendingRPCRequests s
  exact ⟨h.1, h.2.1, h.2.2.1, rfl, h.2.2.2.2.1, h.2.2.2.2.2.1, h.2.2.2.2.2.2.1,
    h.2.2.2.2.2.2.2.1, h.2.2.2.2.2.2.2.2.1, h.2.2.2.2.2.2.2.2.2⟩

/-- C10: at the public `sendRPC` interface, falsy option values are treated
as absent: `options.timeout = 0` yields the 30000 ms default and
`options.correlationId = ""` yields the freshly generated id — a call with
these options behaves exactly like a call with no options at all. -/
theorem sendRPC_falsy_options_treated_as_absent (cfg : Config) (s : RMQState)
    (q b fresh : String) (pubOk : Bool) :
    effectiveTimeout (some 0) = 30000 ∧
    effectiveCorrelationId (some "") fresh = fresh ∧
    sendRPC cfg s q b ⟨some 0, some ""⟩ fresh pubOk =
      sendRPC cfg s q b ⟨none, none⟩ fresh pubOk :=
  ⟨rfl, rfl, rfl⟩

/-- C2 is refuted by the code (the method's own doc comment calls the first
argument the target queue, but `publish` ignores it): a Ready-state
`sendRPC("svc-q", ...)` publishes to the configured exchange under the
configured routing key, not to "svc-q"; the envelope does carry the reply
queue name, the pending correlation id, and the timeout as string
expiration. -/
theorem sendRPC_publishes_to_configured_exchange_ignoring_target :
    ((run sampleCfg sampleReady
        [.send "svc-q" "ping" ⟨none, some "X"⟩ "u0" true]).published.map
        (fun m => (m.exchange, m.routingKey, m.replyTo, m.correlationId, m.expiration)))
      = [("app-exchange", "emails", some "amq.gen-rq", some "X", some "30000")] ∧
    ("app-exchange" : String) ≠ "svc-q" ∧ ("emails" : String) ≠ "svc-q" := by
  decide

/-- C5 is refuted: when closing the channel itself fails, `close()`
propagates the error instead of isolating it, and the remaining steps do not
run — the channel and connection handles and the reply-queue name are all
left set. -/
theorem close_raises_when_channel_close_fails :
    (close sampleReady true false).2 = some .channelCloseFailed ∧
    (close sampleReady true false).1.channel = true ∧
    (close sampleReady true false).1.connection = true ∧
    (close sampleReady true false).1.replyQueue = some "amq.gen-rq" := by
  decide

/-- C5 amended: `close()` is not shielded against resource-release failures.
With the channel handle set, a failing `channel.close()` makes `close()`
reject with that failure, skipping the connection close and the state reset;
only the pending-request drain, which precedes the release steps, has run. -/
theorem close_propagates_release_failure (s : RMQState) (nf : Bool)
    (h : s.channel = true) :
    (close s true nf).2 = some .channelCloseFailed ∧
    (close s true nf).1.pendingRPCRequests = [] ∧
    (close s true nf).1.settled = s.settled ++ s.pendingRPCRequests.map
      (fun p => (⟨p.2.reqIdx, p.1, .rejected .connectionClosed, s.now⟩ : Settlement)) ∧
    (close s true nf).1.channel = s.channel ∧
    (close s true nf).1.connection = s.connection ∧
    (close s true nf).1.replyQueue = s.replyQueue := by
  have hd := drainedState_fields s
  have hcond : (s.channel && true) = true := by simp [h]
  rw [close_eq, if_pos hcond]
  exact ⟨rfl, rfl, drainedState_settled s, hd.1, hd.2.1, hd.2.2.1⟩

/-- Witness for the C5 amended theorem at a concrete Ready state. -/
theorem close_propagates_release_failure_witness :
    sampleReady.channel = true ∧
    ((close sampleReady true false).2 = some .channelCloseFailed ∧
     (close sampleReady true false).1.pendingRPCRequests = [] ∧
     (close sampleReady true false).1.settled = sampleReady.settled ++
       sampleReady.pendingRPCRequests.map
       (fun p => (⟨p.2.reqIdx, p.1, .rejected .connectionClosed, sampleReady.now⟩ : Settlement)) ∧
     (close sampleReady true false).1.channel = sampleReady.channel ∧
     (close sampleReady true false).1.connection = sampleReady.connection ∧
     (close sampleReady true false).1.replyQueue = sampleReady.replyQueue) :=
  ⟨rfl, close_propagates_release_failure sampleReady false rfl⟩

/-- C6 is refuted: a second `sendRPC` supplying the already-pending
correlation id "X" does not fail with a duplicate-id error; it succeeds and
`Map.set` silently replaces the pending entry.  After the two calls the
registry maps "X" to the second request (index 1, timer 1); the first
request is neither pending nor settled, and its timer (id 0) is still
scheduled. -/
theorem duplicate_correlationId_silently_replaces :
    (run sampleCfg sampleReady
        [.send "q" "m1" ⟨none, some "X"⟩ "u0" true]).pendingRPCRequests
      = [("X", ⟨0, 0⟩)] ∧
    (sendRPC sampleCfg
        (run sampleCfg sampleReady [.send "q" "m1" ⟨none, some "X"⟩ "u0" true])
        "q" "m2" ⟨none, some "X"⟩ "u1" true).toOption
      = some (run sampleCfg sampleReady
          [.send "q" "m1" ⟨none, some "X"⟩ "u0" true,
           .send "q" "m2" ⟨none, some "X"⟩ "u1" true], 1) ∧
    (run sampleCfg sampleReady
        [.send "q" "m1" ⟨none, some "X"⟩ "u0" true,
         .send "q" "m2" ⟨none, some "X"⟩ "u1" true]).pendingRPCRequests
      = [("X", ⟨1, 1⟩)] ∧
    (run sampleCfg sampleReady
        [.send "q" "m1" ⟨none, some "X"⟩ "u0" true,
         .send "q" "m2" ⟨none, some "X"⟩ "u1" true]).settled = [] ∧
    ((run sampleCfg sampleReady
        [.send "q" "m1" ⟨none, some "X"⟩ "u0" true,
         .send "q" "m2" ⟨none, some "X"⟩ "u1" true]).timers.map Timer.id) = [0, 1] := by
  decide

/-- C6 amended: registering a pending request under an already-pending
correlation id is not guarded at all: the `sendRPC` call succeeds (there is
no duplicate-id failure), `Map.set` silently replaces the existing entry with
the new request, and every previously scheduled timer — including the
replaced entry's — stays scheduled. -/
theorem sendRPC_duplicate_replaces_pending_entry (cfg : Config) (s : RMQState)
    (q b fresh : String) (opts : RPCOptions) (c : String) (e : PendingEntry)
    (hch : s.channel = true) (hrq : truthyStr s.replyQueue = true)
    (hc : effectiveCorrelationId opts.correlationId fresh = c)
    (hpend : mapGet s.pendingRPCRequests c = some e) :
    ∃ s2 : RMQState,
      sendRPC cfg s q b opts fresh true = .ok (s2, s.nextReqIdx) ∧
      mapGet s2.pendingRPCRequests c = some ⟨s.nextReqIdx, s.nextTimerId⟩ ∧
      (∀ t ∈ s.timers, t ∈ s2.timers) ∧
      (⟨s.nextTimerId, s.nextReqIdx, c, effectiveTimeout opts.timeout,
        s.now + effectiveTimeout opts.timeout⟩ : Timer) ∈ s2.timers := by
  simp only [sendRPC, hch, hrq, Bool.not_true, Bool.or_self, Bool.false_or, if_false, hc]
  simp only [publish, hch, Bool.not_true, if_false]
  refine ⟨_, rfl, ?_, ?_, ?_⟩
  · simp [mapGet_mapSet_self]
  · intro t ht
    simp [List.mem_append, ht]
  · simp

/-- Witness for the C6 amended theorem: a Ready state in which "X" is already
pending. -/
theorem sendRPC_duplicate_replaces_pending_entry_witness :
    mapGet dupState1.pendingRPCRequests "X" = some ⟨0, 0⟩ ∧
    (∃ s2 : RMQState,
      sendRPC sampleCfg dupState1 "q" "m2" ⟨none, some "X"⟩ "u1" true
        = .ok (s2, dupState1.nextReqIdx) ∧
      mapGet s2.pendingRPCRequests "X" = some ⟨dupState1.nextReqIdx, dupState1.nextTimerId⟩ ∧
      (∀ t ∈ dupState1.timers, t ∈ s2.timers) ∧
      (⟨dupState1.nextTimerId, dupState1.nextReqIdx, "X", effectiveTimeout none,
        dupState1.now + effectiveTimeout none⟩ : Timer) ∈ s2.timers) :=
  ⟨by decide,
   sendRPC_duplicate_replaces_pending_entry sampleCfg dupState1 "q" "m2" "u1"
     ⟨none, some "X"⟩ "X" ⟨0, 0⟩ (by decide) (by decide) (by decide) (by decide)⟩

/-- C9: when the publish step inside `sendRPC` fails, the `.catch` handler
clears the fresh timer, removes the fresh registry entry, and rejects the
returned promise with the publish error: relative to the pre-call state, the
timers, the registry and the published log are unchanged, and the only new
observations are the registration record and the rejection. -/
theorem sendRPC_publish_failure_cleanup (cfg : Config) (s : RMQState)
    (q b fresh : String) (opts : RPCOptions)
    (hch : s.channel = true) (hrq : truthyStr s.replyQueue = true)
    (hfresh : ∀ t ∈ s.timers, t.id ≠ s.nextTimerId)
    (hc : mapGet s.pendingRPCRequests (effectiveCorrelationId opts.correlationId fresh) = none) :
    sendRPC cfg s q b opts fresh false = .ok
      ({ s with
          nextReqIdx := s.nextReqIdx + 1,
          nextTimerId := s.nextTimerId + 1,
          requests := s.requests ++ [⟨s.nextReqIdx, effectiveCorrelationId opts.correlationId fresh,
            effectiveTimeout opts.timeout, s.now⟩],
          settled := s.settled ++ [⟨s.nextReqIdx, effectiveCorrelationId opts.correlationId fresh,
            .rejected .publishFailed, s.now⟩] }, s.nextReqIdx) := by
  simp only [sendRPC, hch, hrq, Bool.not_true, Bool.or_self, Bool.false_or, if_false,
    Bool.false_eq_true, settlePromise]
  have ht : clearTimeout (s.timers ++ [⟨s.nextTimerId, s.nextReqIdx,
      effectiveCorrelationId opts.correlationId fresh, effectiveTimeout opts.timeout,
      s.now + effectiveTimeout opts.timeout⟩]) s.nextTimerId = s.timers := by
    unfold clearTimeout
    rw [List.filter_append]
    rw [List.filter_eq_self.2 (by intro t htm; simpa using hfresh t htm)]
    simp
  rw [ht, mapDelete_mapSet_of_get_none _ hc]

/-- Witness for C9 at the sample Ready state. -/
theorem sendRPC_publish_failure_cleanup_witness :
    sampleReady.channel = true ∧
    sendRPC sampleCfg sampleReady "q" "b" ⟨some 7, some "Z"⟩ "u" false = .ok
      ({ sampleReady with
          nextReqIdx := sampleReady.nextReqIdx + 1,
          nextTimerId := sampleReady.nextTimerId + 1,
          requests := sampleReady.requests ++ [⟨sampleReady.nextReqIdx,
            effectiveCorrelationId (some "Z") "u", effectiveTimeout (some 7), sampleReady.now⟩],
          settled := sampleReady.settled ++ [⟨sampleReady.nextReqIdx,
            effectiveCorrelationId (some "Z") "u",
            .rejected .publishFailed, sampleReady.now⟩] }, sampleReady.nextReqIdx) :=
  ⟨rfl, sendRPC_publish_failure_cleanup sampleCfg sampleReady "q" "b" "u" ⟨some 7, some "Z"⟩
    rfl (by decide) (by decide) (by decide)⟩

theorem runReplies_noop {msg : InboundMsg}
    (h : truthyStr msg.replyTo = false ∨ truthyStr msg.correlationId = false) :
    ∀ (s : RMQState) (rs : List String), runReplies msg s rs = (s, none) := by
  intro s rs
  induction rs generalizing s with
  | nil => rfl
  | cons r rest ih =>
    have hcr : contextReply s msg r = .ok s := by
      unfold contextReply
      rcases h with h | h <;> simp [h]
    rw [runReplies, hcr]
    exact ih s

theorem runReplies_channel_ok {msg : InboundMsg} :
    ∀ (s : RMQState) (rs : List String), s.channel = true →
      (runReplies msg s rs).2 = none ∧ (runReplies msg s rs).1.channel = true := by
  intro s rs
  induction rs generalizing s with
  | nil => intro h; exact ⟨rfl, h⟩
  | cons r rest ih =>
    intro h
    by_cases ht : (truthyStr msg.replyTo && truthyStr msg.correlationId) = true
    · have hcr : contextReply s msg r = .ok { s with
        sentToQueue := s.sentToQueue ++ [⟨msg.replyTo.getD "", msg.correlationId.getD "", r⟩] } := by
        unfold contextReply sendRPCReply
        simp [ht, h]
      rw [runReplies, hcr]
      exact ih _ h
    · have hcr : contextReply s msg r = .ok s := by
        unfold contextReply
        simp [ht]
      rw [runReplies, hcr]
      exact ih s h

/-- C8: the `consume` dispatcher.  The context's `reply` helper is a no-op —
the state (hence the wire) is untouched — whenever the message's `replyTo` or
`correlationId` is absent (falsy); a handler that completes successfully gets
the message acknowledged; a handler that throws gets it negatively
acknowledged with `requeue = false`. -/
theorem consume_dispatch (s : RMQState) (msg : InboundMsg) (script : HandlerScript) :
    ((truthyStr msg.replyTo = false ∨ truthyStr msg.correlationId = false) →
      (processMessage s msg script).1 = s) ∧
    (s.channel = true → jsonParse msg.content ≠ none → script.ok = true →
      (processMessage s msg script).2 = .ack) ∧
    (jsonParse msg.content ≠ none → script.ok = false →
      (processMessage s msg script).2 = .nack false false) := by
  refine ⟨?_, ?_, ?_⟩
  · intro h
    unfold processMessage
    rcases hp : jsonParse msg.content with _ | v
    · rfl
    · rw [runReplies_noop h s script.replies]
      by_cases ho : script.ok <;> simp [ho]
  · intro hch hp hok
    unfold processMessage
    rcases hj : jsonParse msg.content with _ | v
    · exact absurd hj hp
    · obtain ⟨h2, _⟩ := runReplies_channel_ok s script.replies hch
      rcases hr : runReplies msg s script.replies with ⟨s', err⟩
      rw [hr] at h2
      simp at h2
      subst h2
      simp [hok]
  · intro hp hok
    unfold processMessage
    rcases hj : jsonParse msg.content with _ | v
    · exact absurd hj hp
    · rcases hr : runReplies msg s script.replies with ⟨s', err⟩
      rcases err with _ | e
      · simp [hok]
      · rfl

/-- Witness for C8: a message without `replyTo` leaves the state unchanged, a
successful handler acks, a throwing handler nacks without requeue. -/
theorem consume_dispatch_witness :
    (processMessage sampleReady ⟨.ok "p", none, some "c", none⟩ ⟨["r1"], true⟩).1
      = sampleReady ∧
    (processMessage sampleReady ⟨.ok "p", some "q1", some "c", none⟩ ⟨["r1"], true⟩).2
      = .ack ∧
    (processMessage sampleReady ⟨.ok "p", some "q1", some "c", none⟩ ⟨[], false⟩).2
      = .nack false false :=
  ⟨(consume_dispatch sampleReady ⟨.ok "p", none, some "c", none⟩ ⟨["r1"], true⟩).1
      (Or.inl (by decide)),
   (consume_dispatch sampleReady ⟨.ok "p", some "q1", some "c", none⟩ ⟨["r1"], true⟩).2.1
      rfl (by decide) rfl,
   (consume_dispatch sampleReady ⟨.ok "p", some "q1", some "c", none⟩ ⟨[], false⟩).2.2
      (by decide) rfl⟩

theorem nodup_append_singleton {α : Type _} {l : List α} {a : α}
    (h : l.Nodup) (ha : a ∉ l) : (l ++ [a]).Nodup := by
  simp [List.nodup_append, h, ha]

theorem mapGet_of_mem_nodupKeys {m : PendingMap} {k : String} {v : PendingEntry}
    (hn : (m.map Prod.fst).Nodup) (hm : (k, v) ∈ m) : mapGet m k = some v := by
  induction m with
  | nil => simp at hm
  | cons p rest ih =>
    simp only [List.map_cons, List.nodup_cons] at hn
    rw [List.mem_cons] at hm
    rcases hm with hm | hm
    · rw [← hm]
      simp [mapGet]
    · have hk : p.1 ≠ k := by
        intro hpk
        exact hn.1 (List.mem_map.2 ⟨(k, v), hm, hpk.symm⟩)
      rw [mapGet, if_neg hk]
      exact ih hn.2 hm

theorem mapSet_of_get_none {m : PendingMap} {k : String} (v : PendingEntry)
    (h : mapGet m k = none) : mapSet m k v = m ++ [(k, v)] := by
  induction m with
  | nil => rfl
  | cons p rest ih =>
    by_cases hk : p.1 = k
    · simp [mapGet, hk] at h
    · simp only [mapGet, if_neg hk] at h
      rw [mapSet, if_neg hk, ih h, List.cons_append]

theorem pendingEntry_inj {s : RMQState} (hInv : Inv s)
    {p1 p2 : String × PendingEntry} (h1 : p1 ∈ s.pendingRPCRequests)
    (h2 : p2 ∈ s.pendingRPCRequests) (h : p1.2.reqIdx = p2.2.reqIdx) : p1 = p2 := by
  obtain ⟨t1, ht1, e11, e12, e13⟩ := hInv.pendingTimer p1 h1
  obtain ⟨t2, ht2, e21, e22, e23⟩ := hInv.pendingTimer p2 h2
  have ht : t1 = t2 :=
    List.inj_on_of_nodup_map hInv.timersReqNodup ht1 ht2 (by rw [e12, e22, h])
  have hk : p1.1 = p2.1 := by rw [← e13, ← e23, ht]
  exact List.inj_on_of_nodup_map hInv.pendingKeyNodup h1 h2 hk

theorem inv_congr {s1 s2 : RMQState} (hInv : Inv s1)
    (hp : s2.pendingRPCRequests = s1.pendingRPCRequests)
    (ht : s2.timers = s1.timers) (hs : s2.settled = s1.settled)
    (hr : s2.requests = s1.requests) (hn : s2.nextTimerId = s1.nextTimerId)
    (hq : s2.nextReqIdx = s1.nextReqIdx) : Inv s2 := by
  refine ⟨?_, ?_, ?_, ?_, ?_, ?_, ?_, ?_, ?_, ?_, ?_, ?_, ?_⟩
  · rw [hs]; exact hInv.settledNodup
  · rw [ht]; exact hInv.timersIdNodup
  · rw [ht]; exact hInv.timersReqNodup
  · rw [hp]; exact hInv.pendingKeyNodup
  · rw [hr]; exact hInv.requestsNodup
  · rw [ht, hs]; exact hInv.timerUnsettled
  · rw [hp, ht]; exact hInv.pendingTimer
  · rw [ht, hr]; exact hInv.timerReq
  · rw [hs, hr]; exact hInv.settledReq
  · rw [ht, hn]; exact hInv.timerIdLt
  · rw [ht, hq]; exact hInv.timerReqLt
  · rw [hs, hq]; exact hInv.settledLt
  · rw [hr, hq]; exact hInv.requestsLt

theorem inv_settleRemove {s : RMQState} (hInv : Inv s) {cid : String} {tid r : Nat}
    {t : Timer} (htm : t ∈ s.timers) (hid : t.id = tid) (hr : t.reqIdx = r)
    (hcid : t.corrId = cid) (out : Outcome) :
    Inv (settlePromise
      { s with
        timers := clearTimeout s.timers tid,
        pendingRPCRequests := mapDelete s.pendingRPCRequests cid } r cid out) := by
  subst hid hr hcid
  refine ⟨?_, ?_, ?_, ?_, ?_, ?_, ?_, ?_, ?_, ?_, ?_, ?_, ?_⟩
  · simp only [settlePromise, List.map_append, List.map_cons, List.map_nil]
    exact nodup_append_singleton hInv.settledNodup
      (fun hmem => by
        obtain ⟨stl, hstl, he⟩ := List.mem_map.1 hmem
        exact hInv.timerUnsettled t htm stl hstl he)
  · exact hInv.timersIdNodup.sublist ((clearTimeout_sublist s.timers t.id).map Timer.id)
  · exact hInv.timersReqNodup.sublist ((clearTimeout_sublist s.timers t.id).map Timer.reqIdx)
  · exact keys_mapDelete_nodup hInv.pendingKeyNodup
  · exact hInv.requestsNodup
  · intro t' ht' stl hstl
    obtain ⟨ht'm, ht'id⟩ := mem_clearTimeout.1 ht'
    rcases List.mem_append.1 hstl with hstl | hstl
    · exact hInv.timerUnsettled t' ht'm stl hstl
    · simp at hstl
      rw [hstl]
      intro hre
      exact ht'id (by
        rw [List.inj_on_of_nodup_map hInv.timersReqNodup ht'm htm hre.symm])
  · intro p hp
    obtain ⟨hpm, hpk⟩ := mem_mapDelete.1 hp
    obtain ⟨tp, htpm, e1, e2, e3⟩ := hInv.pendingTimer p hpm
    refine ⟨tp, mem_clearTimeout.2 ⟨htpm, fun hide => ?_⟩, e1, e2, e3⟩
    have : tp = t := List.inj_on_of_nodup_map hInv.timersIdNodup htpm htm hide
    rw [this] at e3
    exact hpk e3.symm
  · intro t' ht'
    exact hInv.timerReq t' (mem_clearTimeout.1 ht').1
  · intro stl hstl
    rcases List.mem_append.1 hstl with hstl | hstl
    · exact hInv.settledReq stl hstl
    · simp at hstl
      obtain ⟨q, hq, e1, e2, _, _⟩ := hInv.timerReq t htm
      exact ⟨q, hq, by rw [hstl, e1], by rw [hstl, e2]⟩
  · intro t' ht'
    exact hInv.timerIdLt t' (mem_clearTimeout.1 ht').1
  · intro t' ht'
    exact hInv.timerReqLt t' (mem_clearTimeout.1 ht').1
  · intro stl hstl
    rcases List.mem_append.1 hstl with hstl | hstl
    · exact hInv.settledLt stl hstl
    · simp at hstl
      rw [hstl]
      exact hInv.timerReqLt t htm
  · exact hInv.requestsLt

theorem inv_handleRPCReply {s : RMQState} (hInv : Inv s) (c : Option String) (raw : Raw) :
    Inv (handleRPCReply s c raw) := by
  unfold handleRPCReply
  by_cases hb : (!truthyStr c) = true
  · rw [if_pos hb]
    exact hInv
  · rw [if_neg (by simp_all)]
    rcases hget : mapGet s.pendingRPCRequests (c.getD "") with _ | e
    · simp only [hget]
      exact hInv
    · simp only [hget]
      obtain ⟨t, htm, h1, h2, h3⟩ := hInv.pendingTimer _ (mapGet_eq_some_mem hget)
      rcases hparse : jsonParse raw with _ | v <;> simp only [hparse] <;>
        exact inv_settleRemove hInv htm h1 h2 h3 _

theorem inv_fireTimer {s : RMQState} (hInv : Inv s) (tid : Nat) :
    Inv (fireTimer s tid) := by
  unfold fireTimer
  rcases hf : s.timers.find? (fun t => t.id = tid) with _ | t
  · simp only [hf]
    exact hInv
  · simp only [hf]
    have htm : t ∈ s.timers := List.mem_of_find?_eq_some hf
    have hid : t.id = tid := by simpa using List.find?_some hf
    by_cases hd : t.deadline ≤ s.now
    · rw [if_pos hd]
      exact inv_settleRemove hInv htm hid rfl rfl _
    · rw [if_neg hd]
      exact hInv

theorem inv_register {s : RMQState} (hInv : Inv s) (c : String) (T : Nat) :
    Inv { s with
      nextReqIdx := s.nextReqIdx + 1,
      nextTimerId := s.nextTimerId + 1,
      timers := s.timers ++ [⟨s.nextTimerId, s.nextReqIdx, c, T, s.now + T⟩],
      pendingRPCRequests := mapSet s.pendingRPCRequests c ⟨s.nextReqIdx, s.nextTimerId⟩,
      requests := s.requests ++ [⟨s.nextReqIdx, c, T, s.now⟩] } := by
  refine ⟨?_, ?_, ?_, ?_, ?_, ?_, ?_, ?_, ?_, ?_, ?_, ?_, ?_⟩
  · exact hInv.settledNodup
  · rw [List.map_append]
    refine nodup_append_singleton hInv.timersIdNodup (fun hmem => ?_)
    obtain ⟨t, ht, he⟩ := List.mem_map.1 hmem
    exact absurd he (Nat.ne_of_lt (hInv.timerIdLt t ht))
  · rw [List.map_append]
    refine nodup_append_singleton hInv.timersReqNodup (fun hmem => ?_)
    obtain ⟨t, ht, he⟩ := List.mem_map.1 hmem
    exact absurd he (Nat.ne_of_lt (hInv.timerReqLt t ht))
  · rw [keys_mapSet]
    by_cases hp : (mapGet s.pendingRPCRequests c).isSome
    · rw [if_pos hp]
      exact hInv.pendingKeyNodup
    · rw [if_neg hp]
      refine nodup_append_singleton hInv.pendingKeyNodup (fun hmem => ?_)
      obtain ⟨p, hpm, he⟩ := List.mem_map.1 hmem
      have hnone : mapGet s.pendingRPCRequests c = none := by
        rcases hg : mapGet s.pendingRPCRequests c with _ | e
        · rfl
        · rw [hg] at hp
          simp at hp
      exact (mapGet_eq_none_iff.1 hnone p hpm) he
  · rw [List.map_append]
    refine nodup_append_singleton hInv.requestsNodup (fun hmem => ?_)
    obtain ⟨q, hq, he⟩ := List.mem_map.1 hmem
    exact absurd he (Nat.ne_of_lt (hInv.requestsLt q hq))
  · intro t' ht' stl hstl
    rcases List.mem_append.1 ht' with ht' | ht'
    · exact hInv.timerUnsettled t' ht' stl hstl
    · simp at ht'
      rw [ht']
      exact Nat.ne_of_lt (hInv.settledLt stl hstl)
  · intro p hp
    rcases mem_mapSet hp with hp' | hp'
    · refine ⟨⟨s.nextTimerId, s.nextReqIdx, c, T, s.now + T⟩,
        List.mem_append_right _ (List.mem_singleton.2 rfl), ?_, ?_, ?_⟩ <;> rw [hp']
    · obtain ⟨tp, htp, e1, e2, e3⟩ := hInv.pendingTimer p hp'
      exact ⟨tp, List.mem_append_left _ htp, e1, e2, e3⟩
  · intro t' ht'
    rcases List.mem_append.1 ht' with ht' | ht'
    · obtain ⟨q, hq, e1, e2, e3, e4⟩ := hInv.timerReq t' ht'
      exact ⟨q, List.mem_append_left _ hq, e1, e2, e3, e4⟩
    · simp at ht'
      refine ⟨⟨s.nextReqIdx, c, T, s.now⟩,
        List.mem_append_right _ (List.mem_singleton.2 rfl), ?_, ?_, ?_, ?_⟩ <;> rw [ht']
  · intro stl hstl
    obtain ⟨q, hq, e1, e2⟩ := hInv.settledReq stl hstl
    exact ⟨q, List.mem_append_left _ hq, e1, e2⟩
  · intro t' ht'
    rcases List.mem_append.1 ht' with ht' | ht'
    · exact Nat.lt_succ_of_lt (hInv.timerIdLt t' ht')
    · simp at ht'
      rw [ht']
      exact Nat.lt_succ_self _
  · intro t' ht'
    rcases List.mem_append.1 ht' with ht' | ht'
    · exact Nat.lt_succ_of_lt (hInv.timerReqLt t' ht')
    · simp at ht'
      rw [ht']
      exact Nat.lt_succ_self _
  · intro stl hstl
    exact Nat.lt_succ_of_lt (hInv.settledLt stl hstl)
  · intro q hq
    rcases List.mem_append.1 hq with hq | hq
    · exact Nat.lt_succ_of_lt (hInv.requestsLt q hq)
    · simp at hq
      rw [hq]
      exact Nat.lt_succ_self _

theorem inv_sendRPC {cfg : Config} {s : RMQState} {q b fresh : String} {opts : RPCOptions}
    {pubOk : Bool} {s' : RMQState} {r : Nat} (hInv : Inv s)
    (h : sendRPC cfg s q b opts fresh pubOk = .ok (s', r)) : Inv s' := by
  unfold sendRPC at h
  by_cases hcond : (!s.channel || !truthyStr s.replyQueue) = true
  · rw [if_pos hcond] at h
    cases h
  · rw [if_neg hcond] at h
    have hch : s.channel = true := by
      rcases hb : s.channel
      · rw [hb] at hcond
        simp at hcond
      · rfl
    have hinv1 := inv_register hInv (effectiveCorrelationId opts.correlationId fresh)
      (effectiveTimeout opts.timeout)
    rcases pubOk with _ | _
    · simp only [Bool.false_eq_true, if_false] at h
      simp only [Except.ok.injEq, Prod.mk.injEq] at h
      obtain ⟨h1, h2⟩ := h
      rw [← h1]
      exact inv_settleRemove hinv1
        (List.mem_append_right _ (List.mem_singleton.2 rfl)) rfl rfl rfl _
    · simp only [if_true, publish, hch, Bool.not_true, Bool.false_eq_true, if_false] at h
      simp only [Except.ok.injEq, Prod.mk.injEq] at h
      obtain ⟨h1, h2⟩ := h
      rw [← h1]
      exact inv_congr hinv1 rfl rfl rfl rfl rfl rfl

theorem inv_drainedState {s : RMQState} (hInv : Inv s) : Inv (drainedState s) := by
  have hset := drainedState_settled s
  have hfld := drainedState_fields s
  have hreq : (drainedState s).requests = s.requests := hfld.2.2.2.2.2.2.2.2.1
  have hnti : (drainedState s).nextTimerId = s.nextTimerId := hfld.2.2.2.2.1
  have hnri : (drainedState s).nextReqIdx = s.nextReqIdx := hfld.2.2.2.2.2.1
  refine ⟨?_, ?_, ?_, ?_, ?_, ?_, ?_, ?_, ?_, ?_, ?_, ?_, ?_⟩
  · rw [hset, List.map_append, List.nodup_append]
    refine ⟨hInv.settledNodup, ?_, ?_⟩
    · rw [List.map_map]
      refine List.Nodup.map_on ?_ hInv.pendingKeyNodup.of_map
      intro x hx y hy hxy
      exact pendingEntry_inj hInv hx hy hxy
    · intro a ha hb
      rw [List.map_map] at hb
      obtain ⟨stl, hstl, hste⟩ := List.mem_map.1 ha
      obtain ⟨p, hp, hpe⟩ := List.mem_map.1 hb
      obtain ⟨tp, htp, e1, e2, e3⟩ := hInv.pendingTimer p hp
      refine hInv.timerUnsettled tp htp stl hstl ?_
      rw [hste, e2]
      exact hpe.symm
  · exact hInv.timersIdNodup.sublist ((drainedState_timers_sublist s).map Timer.id)
  · exact hInv.timersReqNodup.sublist ((drainedState_timers_sublist s).map Timer.reqIdx)
  · simp [drainedState]
  · rw [hreq]
    exact hInv.requestsNodup
  · intro t ht stl hstl
    obtain ⟨htm, hall⟩ := mem_drainedState_timers.1 ht
    rw [hset] at hstl
    rcases List.mem_append.1 hstl with hstl | hstl
    · exact hInv.timerUnsettled t htm stl hstl
    · obtain ⟨p, hp, hpe⟩ := List.mem_map.1 hstl
      intro hre
      obtain ⟨tp, htp, e1, e2, e3⟩ := hInv.pendingTimer p hp
      have hrr : tp.reqIdx = t.reqIdx := by
        rw [e2, ← hre, ← hpe]
      have : tp = t := List.inj_on_of_nodup_map hInv.timersReqNodup htp htm hrr
      exact hall p hp (by rw [← this, e1])
  · intro p hp
    rw [show (drainedState s).pendingRPCRequests = [] from rfl] at hp
    exact absurd hp (List.not_mem_nil p)
  · intro t ht
    obtain ⟨htm, _⟩ := mem_drainedState_timers.1 ht
    rw [hreq]
    exact hInv.timerReq t htm
  · intro stl hstl
    rw [hset] at hstl
    rw [hreq]
    rcases List.mem_append.1 hstl with hstl | hstl
    · exact hInv.settledReq stl hstl
    · obtain ⟨p, hp, hpe⟩ := List.mem_map.1 hstl
      obtain ⟨tp, htp, e1, e2, e3⟩ := hInv.pendingTimer p hp
      obtain ⟨qq, hqq, f1, f2, _, _⟩ := hInv.timerReq tp htp
      refine ⟨qq, hqq, ?_, ?_⟩
      · rw [f1, e2, ← hpe]
      · rw [f2, e3, ← hpe]
  · intro t ht
    rw [hnti]
    exact hInv.timerIdLt t (mem_drainedState_timers.1 ht).1
  · intro t ht
    rw [hnri]
    exact hInv.timerReqLt t (mem_drainedState_timers.1 ht).1
  · intro stl hstl
    rw [hnri]
    rw [hset] at hstl
    rcases List.mem_append.1 hstl with hstl | hstl
    · exact hInv.settledLt stl hstl
    · obtain ⟨p, hp, hpe⟩ := List.mem_map.1 hstl
      obtain ⟨tp, htp, _, e2, _⟩ := hInv.pendingTimer p hp
      rw [← hpe]
      have := hInv.timerReqLt tp htp
      rw [e2] at this
      exact this
  · intro qq hqq
    rw [hreq] at hqq
    rw [hnri]
    exact hInv.requestsLt qq hqq

theorem inv_close {s : RMQState} (hInv : Inv s) (cf nf : Bool) :
    Inv (close s cf nf).1 := by
  rw [close_eq]
  split_ifs
  · exact inv_drainedState hInv
  · exact inv_drainedState hInv
  · exact inv_congr (inv_drainedState hInv) rfl rfl rfl rfl rfl rfl

theorem inv_step {cfg : Config} {s : RMQState} (hInv : Inv s) (e : Event) :
    Inv (step cfg s e) := by
  cases e with
  | send q b o f p =>
    unfold step
    rcases hsr : sendRPC cfg s q b o f p with err | pr
    · simp only [hsr]
      exact hInv
    · rcases pr with ⟨s', r⟩
      simp only [hsr]
      exact inv_sendRPC hInv hsr
  | deliver c raw => exact inv_handleRPCReply hInv c raw
  | fire tid => exact inv_fireTimer hInv tid
  | tick d => exact inv_congr hInv rfl rfl rfl rfl rfl rfl
  | closeEv cf nf => exact inv_close hInv cf nf

theorem inv_run {cfg : Config} {s : RMQState} (hInv : Inv s) (es : List Event) :
    Inv (run cfg s es) := by
  induction es generalizing s with
  | nil => exact hInv
  | cons e rest ih => exact ih (inv_step hInv e)

theorem inv_connectedState (rq : String) : Inv (connectedState rq) := by
  constructor <;> simp [connectedState]

theorem clearTimeout_append_fresh {ts : List Timer} {n : Nat}
    (h : ∀ t ∈ ts, t.id ≠ n) (t0 : Timer) (ht0 : t0.id = n) :
    clearTimeout (ts ++ [t0]) n = ts := by
  unfold clearTimeout
  rw [List.filter_append, List.filter_eq_self.2 (fun t ht => by simpa using h t ht)]
  simp [ht0]

theorem noOrphan_step {cfg : Config} {s : RMQState} (hInv : Inv s) (hNo : NoOrphan s)
    {e : Event} (hgood : sendFreshCid s e = true) : NoOrphan (step cfg s e) := by
  cases e with
  | tick d => exact hNo
  | closeEv cf nf =>
    show NoOrphan (close s cf nf).1
    rw [close_eq]
    split_ifs
    all_goals {
      intro t ht
      obtain ⟨htm, hall⟩ := mem_drainedState_timers.1 ht
      obtain ⟨p, hp, hpe⟩ := hNo t htm
      exact absurd hpe.symm (hall p hp) }
  | deliver c raw =>
    show NoOrphan (handleRPCReply s c raw)
    unfold handleRPCReply
    by_cases hb : (!truthyStr c) = true
    · rw [if_pos hb]
      exact hNo
    · rw [if_neg hb]
      rcases hget : mapGet s.pendingRPCRequests (c.getD "") with _ | e
      · simp only [hget]
        exact hNo
      · simp only [hget]
        have hmain : NoOrphan { s with
            timers := clearTimeout s.timers e.timerId,
            pendingRPCRequests := mapDelete s.pendingRPCRequests (c.getD "") } := by
          intro t' ht'
          obtain ⟨ht'm, hne⟩ := mem_clearTimeout.1 ht'
          obtain ⟨p', hp', hpe'⟩ := hNo t' ht'm
          by_cases hk : p'.1 = c.getD ""
          · exfalso
            have hget' : mapGet s.pendingRPCRequests p'.1 = some p'.2 := by
              rw [← Prod.mk.eta (p := p')] at hp'
              exact mapGet_of_mem_nodupKeys hInv.pendingKeyNodup hp'
            rw [hk, hget] at hget'
            have he : p'.2 = e := by
              injection hget'.symm
            rw [he] at hpe'
            exact hne hpe'.symm
          · exact ⟨p', mem_mapDelete.2 ⟨hp', hk⟩, hpe'⟩
        rcases jsonParse raw with _ | v
        · exact hmain
        · exact hmain
  | fire tid =>
    show NoOrphan (fireTimer s tid)
    unfold fireTimer
    rcases hf : s.timers.find? (fun t => t.id = tid) with _ | t
    · simp only [hf]
      exact hNo
    · simp only [hf]
      have htm : t ∈ s.timers := List.mem_of_find?_eq_some hf
      have hid : t.id = tid := by simpa using List.find?_some hf
      by_cases hd : t.deadline ≤ s.now
      · rw [if_pos hd]
        intro t' ht'
        obtain ⟨ht'm, hne⟩ := mem_clearTimeout.1 ht'
        obtain ⟨p', hp', hpe'⟩ := hNo t' ht'm
        by_cases hk : p'.1 = t.corrId
        · exfalso
          obtain ⟨pt, hpt, hpte⟩ := hNo t htm
          obtain ⟨t2, ht2m, f1, f2, f3⟩ := hInv.pendingTimer pt hpt
          have ht2 : t2 = t := by
            refine List.inj_on_of_nodup_map hInv.timersIdNodup ht2m htm ?_
            rw [f1, hpte]
          have hptk : pt.1 = t.corrId := by
            rw [← f3, ht2]
          have hpp : p' = pt :=
            List.inj_on_of_nodup_map hInv.pendingKeyNodup hp' hpt (by rw [hk, hptk])
          rw [hpp, hpte] at hpe'
          exact hne (by rw [← hpe', hid])
        · exact ⟨p', mem_mapDelete.2 ⟨hp', hk⟩, hpe'⟩
      · rw [if_neg hd]
        exact hNo
  | send q b o f p =>
    show NoOrphan (match sendRPC cfg s q b o f p with
      | .ok (s', _) => s' | .error _ => s)
    rcases hsr : sendRPC cfg s q b o f p with err | pr
    · simp only [hsr]
      exact hNo
    · rcases pr with ⟨s', r⟩
      simp only [hsr]
      have hnone : mapGet s.pendingRPCRequests (effectiveCorrelationId o.correlationId f)
          = none := by
        simpa [sendFreshCid, Option.isNone_iff_eq_none] using hgood
      unfold sendRPC at hsr
      by_cases hcond : (!s.channel || !truthyStr s.replyQueue) = true
      · rw [if_pos hcond] at hsr
        cases hsr
      · rw [if_neg hcond] at hsr
        rcases p with _ | _
        · simp only [Bool.false_eq_true, if_false, Except.ok.injEq, Prod.mk.injEq] at hsr
          obtain ⟨h1, h2⟩ := hsr
          rw [← h1]
          intro t' ht'
          have ht2 : t' ∈ clearTimeout (s.timers ++
              [⟨s.nextTimerId, s.nextReqIdx, effectiveCorrelationId o.correlationId f,
                effectiveTimeout o.timeout, s.now + effectiveTimeout o.timeout⟩])
              s.nextTimerId := ht'
          rw [clearTimeout_append_fresh
            (fun t ht => Nat.ne_of_lt (hInv.timerIdLt t ht)) _ rfl] at ht2
          show ∃ pe ∈ mapDelete (mapSet s.pendingRPCRequests
            (effectiveCorrelationId o.correlationId f)
            ⟨s.nextReqIdx, s.nextTimerId⟩) (effectiveCorrelationId o.correlationId f),
            pe.2.timerId = t'.id
          rw [mapDelete_mapSet_of_get_none _ hnone]
          exact hNo t' ht2
        · have hch : s.channel = true := by
            rcases hb : s.channel
            · rw [hb] at hcond
              simp at hcond
            · rfl
          simp only [if_true, publish, hch, Bool.not_true, Bool.false_eq_true, if_false,
            Except.ok.injEq, Prod.mk.injEq] at hsr
          obtain ⟨h1, h2⟩ := hsr
          rw [← h1]
          intro t' ht'
          have ht2 : t' ∈ s.timers ++
              [⟨s.nextTimerId, s.nextReqIdx, effectiveCorrelationId o.correlationId f,
                effectiveTimeout o.timeout, s.now + effectiveTimeout o.timeout⟩] := ht'
          show ∃ pe ∈ mapSet s.pendingRPCRequests (effectiveCorrelationId o.correlationId f)
            ⟨s.nextReqIdx, s.nextTimerId⟩, pe.2.timerId = t'.id
          rw [mapSet_of_get_none _ hnone]
          rcases List.mem_append.1 ht2 with hmem | hmem
          · obtain ⟨p', hp', hpe'⟩ := hNo t' hmem
            exact ⟨p', List.mem_append_left _ hp', hpe'⟩
          · simp only [List.mem_singleton] at hmem
            refine ⟨(effectiveCorrelationId o.correlationId f, ⟨s.nextReqIdx, s.nextTimerId⟩),
              List.mem_append_right _ (List.mem_singleton.2 rfl), ?_⟩
            rw [hmem]

theorem noOrphan_connectedState (rq : String) : NoOrphan (connectedState rq) := by
  intro t ht
  simp [connectedState] at ht

theorem invO_run {cfg : Config} {s : RMQState} (hInv : Inv s) (hNo : NoOrphan s)
    {es : List Event} (hg : goodTrace cfg s es = true) :
    Inv (run cfg s es) ∧ NoOrphan (run cfg s es) := by
  induction es generalizing s with
  | nil => exact ⟨hInv, hNo⟩
  | cons e rest ih =>
    rw [goodTrace, Bool.and_eq_true] at hg
    exact ih (inv_step hInv e) (noOrphan_step hInv hNo hg.1) hg.2

/-- Helper: `close()` on an already-closed state returns the state unchanged
and no error. -/
theorem close_of_closed {c : RMQState} (hp : c.pendingRPCRequests = [])
    (hch : c.channel = false) (hco : c.connection = false) (hrq : c.replyQueue = none)
    (cf nf : Bool) : close c cf nf = (c, none) := by
  rcases c with ⟨ch, co, rq2, pend, tms, nti, nri, stl, pub, stq, req, nw⟩
  simp only at hp hch hco hrq
  subst hp hch hco hrq
  rfl

/-- C4: from any state reachable without duplicate-id registrations,
`close()` (with both resource releases succeeding) returns no error, rejects
every still-pending request with the connection-closed error (an error
distinct from every RPC-timeout error), leaves no timer scheduled (so no
timer can fire after it returns), clears the registry, resets the channel,
connection and reply-queue fields, and a second `close()` from the resulting
state is a no-op that does not throw, whatever the release-failure flags. -/
theorem close_drains_cancels_resets_idempotent (cfg : Config) (rq : String)
    (es : List Event) (hg : goodTrace cfg (connectedState rq) es = true) :
    (close (run cfg (connectedState rq) es) false false).2 = none ∧
    (∀ p ∈ (run cfg (connectedState rq) es).pendingRPCRequests,
      (⟨p.2.reqIdx, p.1, .rejected .connectionClosed,
        (run cfg (connectedState rq) es).now⟩ : Settlement)
        ∈ (close (run cfg (connectedState rq) es) false false).1.settled) ∧
    (∀ ms, (RMQError.connectionClosed ≠ RMQError.rpcTimeout ms)) ∧
    (close (run cfg (connectedState rq) es) false false).1.pendingRPCRequests = [] ∧
    (close (run cfg (connectedState rq) es) false false).1.timers = [] ∧
    (close (run cfg (connectedState rq) es) false false).1.channel = false ∧
    (close (run cfg (connectedState rq) es) false false).1.connection = false ∧
    (close (run cfg (connectedState rq) es) false false).1.replyQueue = none ∧
    (∀ tid, fireTimer (close (run cfg (connectedState rq) es) false false).1 tid
      = (close (run cfg (connectedState rq) es) false false).1) ∧
    (∀ cf nf, close (close (run cfg (connectedState rq) es) false false).1 cf nf
      = ((close (run cfg (connectedState rq) es) false false).1, none)) := by
  obtain ⟨hInv, hNo⟩ :=
    invO_run (inv_connectedState rq) (noOrphan_connectedState rq) hg
  have hc1 : close (run cfg (connectedState rq) es) false false =
      ({ drainedState (run cfg (connectedState rq) es) with
          channel := false, connection := false, replyQueue := none }, none) := by
    rw [close_eq]
    simp
  have htimers : ({ drainedState (run cfg (connectedState rq) es) with
      channel := false, connection := false, replyQueue := none }).timers = [] := by
    rw [List.eq_nil_iff_forall_not_mem]
    intro t ht
    have ht' : t ∈ (drainedState (run cfg (connectedState rq) es)).timers := ht
    obtain ⟨htm, hall⟩ := mem_drainedState_timers.1 ht'
    obtain ⟨p, hp, hpe⟩ := hNo t htm
    exact absurd hpe.symm (hall p hp)
  rw [hc1]
  refine ⟨rfl, ?_, ?_, rfl, htimers, rfl, rfl, rfl, ?_, ?_⟩
  · intro p hp
    show _ ∈ (drainedState (run cfg (connectedState rq) es)).settled
    rw [drainedState_settled]
    exact List.mem_append_right _ (List.mem_map.2 ⟨p, hp, rfl⟩)
  · intro ms h
    cases h
  · intro tid
    unfold fireTimer
    rw [htimers]
    rfl
  · intro cf nf
    exact close_of_closed rfl rfl rfl rfl cf nf

/-- Witness for C4 on a concrete trace with one pending request. -/
theorem close_drains_cancels_resets_idempotent_witness :
    goodTrace sampleCfg (connectedState "rq") traceA = true ∧
    ((close (run sampleCfg (connectedState "rq") traceA) false false).2 = none ∧
     (∀ p ∈ (run sampleCfg (connectedState "rq") traceA).pendingRPCRequests,
       (⟨p.2.reqIdx, p.1, .rejected .connectionClosed,
         (run sampleCfg (connectedState "rq") traceA).now⟩ : Settlement)
         ∈ (close (run sampleCfg (connectedState "rq") traceA) false false).1.settled) ∧
     (∀ ms, (RMQError.connectionClosed ≠ RMQError.rpcTimeout ms)) ∧
     (close (run sampleCfg (connectedState "rq") traceA) false false).1.pendingRPCRequests = [] ∧
     (close (run sampleCfg (connectedState "rq") traceA) false false).1.timers = [] ∧
     (close (run sampleCfg (connectedState "rq") traceA) false false).1.channel = false ∧
     (close (run sampleCfg (connectedState "rq") traceA) false false).1.connection = false ∧
     (close (run sampleCfg (connectedState "rq") traceA) false false).1.replyQueue = none ∧
     (∀ tid, fireTimer (close (run sampleCfg (connectedState "rq") traceA) false false).1 tid
       = (close (run sampleCfg (connectedState "rq") traceA) false false).1) ∧
     (∀ cf nf, close (close (run sampleCfg (connectedState "rq") traceA) false false).1 cf nf
       = ((close (run sampleCfg (connectedState "rq") traceA) false false).1, none))) :=
  ⟨by decide, close_drains_cancels_resets_idempotent sampleCfg "rq" traceA (by decide)⟩

/-- C7 amended: provided no registration reuses a correlation id that is
still pending (the generation policy the spec assumes; the counterexample
shows what a duplicate breaks), every reachable state satisfies the
settle-once discipline: the settlement log contains each request at most
once (resolve/reject invoked at most once, and removal precedes settlement);
a request still in the registry is unsettled and owns a live scheduled timer
carrying its correlation id; and every scheduled timer is still referenced by
a registry entry — the timeout handle has been cancelled on every removal
path other than the timer's own firing. -/
theorem settle_once_discipline (cfg : Config) (rq : String) (es : List Event)
    (hg : goodTrace cfg (connectedState rq) es = true) :
    ((run cfg (connectedState rq) es).settled.map Settlement.reqIdx).Nodup ∧
    (∀ p ∈ (run cfg (connectedState rq) es).pendingRPCRequests,
      (∀ stl ∈ (run cfg (connectedState rq) es).settled, stl.reqIdx ≠ p.2.reqIdx) ∧
      ∃ t ∈ (run cfg (connectedState rq) es).timers,
        t.id = p.2.timerId ∧ t.reqIdx = p.2.reqIdx ∧ t.corrId = p.1) ∧
    (∀ t ∈ (run cfg (connectedState rq) es).timers,
      ∃ p ∈ (run cfg (connectedState rq) es).pendingRPCRequests,
        p.2.timerId = t.id) := by
  obtain ⟨hInv, hNo⟩ := invO_run (inv_connectedState rq) (noOrphan_connectedState rq) hg
  refine ⟨hInv.settledNodup, ?_, hNo⟩
  intro p hp
  obtain ⟨t, htm, e1, e2, e3⟩ := hInv.pendingTimer p hp
  refine ⟨?_, ⟨t, htm, e1, e2, e3⟩⟩
  intro stl hstl heq
  exact hInv.timerUnsettled t htm stl hstl (heq.trans e2.symm)

/-- Witness for the C7 amended theorem on a concrete trace in which one
request is resolved by its reply and the other times out. -/
theorem settle_once_discipline_witness :
    goodTrace sampleCfg (connectedState "rq")
      [.send "q" "m1" ⟨some 5, some "B"⟩ "u0" true,
       .send "q" "m2" ⟨some 5, some "A"⟩ "u1" true,
       .deliver (some "A") (.ok "ra"), .tick 5, .fire 0] = true ∧
    (((run sampleCfg (connectedState "rq")
        [.send "q" "m1" ⟨some 5, some "B"⟩ "u0" true,
         .send "q" "m2" ⟨some 5, some "A"⟩ "u1" true,
         .deliver (some "A") (.ok "ra"), .tick 5, .fire 0]).settled.map
        Settlement.reqIdx).Nodup ∧
     (∀ p ∈ (run sampleCfg (connectedState "rq")
        [.send "q" "m1" ⟨some 5, some "B"⟩ "u0" true,
         .send "q" "m2" ⟨some 5, some "A"⟩ "u1" true,
         .deliver (some "A") (.ok "ra"), .tick 5, .fire 0]).pendingRPCRequests,
       (∀ stl ∈ (run sampleCfg (connectedState "rq")
          [.send "q" "m1" ⟨some 5, some "B"⟩ "u0" true,
           .send "q" "m2" ⟨some 5, some "A"⟩ "u1" true,
           .deliver (some "A") (.ok "ra"), .tick 5, .fire 0]).settled,
         stl.reqIdx ≠ p.2.reqIdx) ∧
       ∃ t ∈ (run sampleCfg (connectedState "rq")
          [.send "q" "m1" ⟨some 5, some "B"⟩ "u0" true,
           .send "q" "m2" ⟨some 5, some "A"⟩ "u1" true,
           .deliver (some "A") (.ok "ra"), .tick 5, .fire 0]).timers,
         t.id = p.2.timerId ∧ t.reqIdx = p.2.reqIdx ∧ t.corrId = p.1) ∧
     (∀ t ∈ (run sampleCfg (connectedState "rq")
        [.send "q" "m1" ⟨some 5, some "B"⟩ "u0" true,
         .send "q" "m2" ⟨some 5, some "A"⟩ "u1" true,
         .deliver (some "A") (.ok "ra"), .tick 5, .fire 0]).timers,
       ∃ p ∈ (run sampleCfg (connectedState "rq")
          [.send "q" "m1" ⟨some 5, some "B"⟩ "u0" true,
           .send "q" "m2" ⟨some 5, some "A"⟩ "u1" true,
           .deliver (some "A") (.ok "ra"), .tick 5, .fire 0]).pendingRPCRequests,
         p.2.timerId = t.id)) :=
  ⟨by decide, settle_once_discipline sampleCfg "rq"
    [.send "q" "m1" ⟨some 5, some "B"⟩ "u0" true,
     .send "q" "m2" ⟨some 5, some "A"⟩ "u1" true,
     .deliver (some "A") (.ok "ra"), .tick 5, .fire 0] (by decide)⟩

/-- C7 is refuted as stated: after two registrations under the same
correlation id "X", the first request's entry has been removed from the
registry through a path other than its timer (the `Map.set` replacement),
neither its resolve nor its reject has been invoked, yet its timeout handle
(timer 0) is still scheduled — the timeout handle was not cancelled on
removal. -/
theorem duplicate_registration_leaks_timer :
    ((run sampleCfg sampleReady [.send "q" "m1" ⟨none, some "X"⟩ "u0" true,
        .send "q" "m2" ⟨none, some "X"⟩ "u1" true]).settled = []) ∧
    ((run sampleCfg sampleReady [.send "q" "m1" ⟨none, some "X"⟩ "u0" true,
        .send "q" "m2" ⟨none, some "X"⟩ "u1" true]).pendingRPCRequests.map
        (fun p => p.2.reqIdx) = [1]) ∧
    ((run sampleCfg sampleReady [.send "q" "m1" ⟨none, some "X"⟩ "u0" true,
        .send "q" "m2" ⟨none, some "X"⟩ "u1" true]).timers.map Timer.id = [0, 1]) ∧
    ¬ (∀ t ∈ (run sampleCfg sampleReady [.send "q" "m1" ⟨none, some "X"⟩ "u0" true,
        .send "q" "m2" ⟨none, some "X"⟩ "u1" true]).timers,
       ∃ p ∈ (run sampleCfg sampleReady [.send "q" "m1" ⟨none, some "X"⟩ "u0" true,
          .send "q" "m2" ⟨none, some "X"⟩ "u1" true]).pendingRPCRequests,
         p.2.timerId = t.id) := by
  decide

theorem handleRPCReply_unknown {s : RMQState} {c : String}
    (h : mapGet s.pendingRPCRequests c = none) (raw : Raw) :
    handleRPCReply s (some c) raw = s := by
  unfold handleRPCReply
  by_cases hb : (!truthyStr (some c)) = true
  · rw [if_pos hb]
  · rw [if_neg hb]
    simp only [Option.getD_some, h]

theorem phase_step {cfg : Config} {sf : RMQState} {c : String} {r tid T dl : Nat}
    (hInv : Inv sf) {e : Event} (hav : avoids c e = true)
    (h : PhaseA c r tid T dl sf ∨ PhaseB c r T dl sf) :
    PhaseA c r tid T dl (step cfg sf e) ∨ PhaseB c r T dl (step cfg sf e) := by
  cases e with
  | tick d => exact h
  | closeEv cf nf => simp [avoids] at hav
  | deliver c' raw =>
    show PhaseA c r tid T dl (handleRPCReply sf c' raw) ∨
      PhaseB c r T dl (handleRPCReply sf c' raw)
    have hcc : c' ≠ some c := by simpa [avoids] using hav
    unfold handleRPCReply
    by_cases hb : (!truthyStr c') = true
    · rw [if_pos hb]
      exact h
    · rw [if_neg hb]
      rcases hget : mapGet sf.pendingRPCRequests (c'.getD "") with _ | e'
      · simp only [hget]
        exact h
      · simp only [hget]
        have hcid : c'.getD "" ≠ c := by
          rcases c' with _ | x
          · simp [truthyStr] at hb
          · simp only [Option.getD_some]
            intro hx
            exact hcc (by rw [hx])
        obtain ⟨t2, ht2m, f1, f2, f3⟩ := hInv.pendingTimer _ (mapGet_eq_some_mem hget)
        have hkey : ∀ out : Outcome,
            PhaseA c r tid T dl (settlePromise { sf with
              timers := clearTimeout sf.timers e'.timerId,
              pendingRPCRequests := mapDelete sf.pendingRPCRequests (c'.getD "") }
              e'.reqIdx (c'.getD "") out) ∨
            PhaseB c r T dl (settlePromise { sf with
              timers := clearTimeout sf.timers e'.timerId,
              pendingRPCRequests := mapDelete sf.pendingRPCRequests (c'.getD "") }
              e'.reqIdx (c'.getD "") out) := by
          intro out
          rcases h with hA | hB
          · obtain ⟨a1, a2, a3, a4⟩ := hA
            have hne_t : (⟨tid, r, c, T, dl⟩ : Timer).id ≠ e'.timerId := by
              intro hidq
              have heq : (⟨tid, r, c, T, dl⟩ : Timer) = t2 :=
                List.inj_on_of_nodup_map hInv.timersIdNodup a2 ht2m (by rw [hidq, f1])
              have hc2 : c = c'.getD "" := by
                have := congrArg Timer.corrId heq
                simpa [f3] using this
              exact hcid hc2.symm
            have hrne : e'.reqIdx ≠ r := by
              intro hre
              have hpe := pendingEntry_inj hInv (mapGet_eq_some_mem hget)
                (mapGet_eq_some_mem a1) (by simpa using hre)
              have := congrArg Prod.fst hpe
              exact hcid (by simpa using this)
            left
            refine ⟨?_, ?_, ?_, ?_⟩
            · show mapGet (mapDelete sf.pendingRPCRequests (c'.getD "")) c = some ⟨r, tid⟩
              rw [mapGet_mapDelete_ne _ (fun hh => hcid hh.symm)]
              exact a1
            · exact mem_clearTimeout.2 ⟨a2, hne_t⟩
            · intro stl hstl
              rcases List.mem_append.1 hstl with hstl | hstl
              · exact a3 stl hstl
              · simp only [List.mem_singleton] at hstl
                rw [hstl]
                exact hrne
            · intro t ht hc2
              exact a4 t (mem_clearTimeout.1 ht).1 hc2
          · obtain ⟨b1, b2, tm, b3, b4⟩ := hB
            right
            refine ⟨?_, ?_, tm, ?_, b4⟩
            · show mapGet (mapDelete sf.pendingRPCRequests (c'.getD "")) c = none
              rw [mapGet_mapDelete_ne _ (fun hh => hcid hh.symm)]
              exact b1
            · intro t ht
              exact b2 t (mem_clearTimeout.1 ht).1
            · exact List.mem_append_left _ b3
        rcases jsonParse raw with _ | v
        · exact hkey _
        · exact hkey _
  | fire tid' =>
    show PhaseA c r tid T dl (fireTimer sf tid') ∨ PhaseB c r T dl (fireTimer sf tid')
    unfold fireTimer
    rcases hf : sf.timers.find? (fun t => t.id = tid') with _ | t'
    · simp only [hf]
      exact h
    · simp only [hf]
      have ht'm : t' ∈ sf.timers := List.mem_of_find?_eq_some hf
      have hid' : t'.id = tid' := by simpa using List.find?_some hf
      by_cases hd : t'.deadline ≤ sf.now
      · rw [if_pos hd]
        rcases h with hA | hB
        · obtain ⟨a1, a2, a3, a4⟩ := hA
          by_cases hcorr : t'.corrId = c
          · have ht'r : t' = ⟨tid, r, c, T, dl⟩ := a4 t' ht'm hcorr
            have hdl : t'.deadline = dl := by rw [ht'r]
            right
            refine ⟨?_, ?_, sf.now, ?_, ?_⟩
            · show mapGet (mapDelete sf.pendingRPCRequests t'.corrId) c = none
              rw [hcorr]
              exact mapGet_mapDelete_self _ _
            · intro t ht hc2
              obtain ⟨htm2, hne2⟩ := mem_clearTimeout.1 ht
              have heq2 := a4 t htm2 hc2
              refine hne2 ?_
              rw [heq2, ← hid', ht'r]
            · show _ ∈ sf.settled ++
                [⟨t'.reqIdx, t'.corrId, .rejected (.rpcTimeout t'.timeout), sf.now⟩]
              rw [ht'r]
              exact List.mem_append_right _ (List.mem_singleton.2 rfl)
            · rw [← hdl]
              exact hd
          · left
            have hne_t : (⟨tid, r, c, T, dl⟩ : Timer).id ≠ tid' := by
              intro hidq
              have heq : (⟨tid, r, c, T, dl⟩ : Timer) = t' :=
                List.inj_on_of_nodup_map hInv.timersIdNodup a2 ht'm (by rw [hidq, hid'])
              exact hcorr (by rw [← heq])
            have hrne : t'.reqIdx ≠ r := by
              intro hre
              have heq : t' = (⟨tid, r, c, T, dl⟩ : Timer) :=
                List.inj_on_of_nodup_map hInv.timersReqNodup ht'm a2 (by simpa using hre)
              exact hcorr (by rw [heq])
            refine ⟨?_, ?_, ?_, ?_⟩
            · show mapGet (mapDelete sf.pendingRPCRequests t'.corrId) c = some ⟨r, tid⟩
              rw [mapGet_mapDelete_ne _ (fun hh => hcorr hh.symm)]
              exact a1
            · exact mem_clearTimeout.2 ⟨a2, hne_t⟩
            · intro stl hstl
              rcases List.mem_append.1 hstl with hstl | hstl
              · exact a3 stl hstl
              · simp only [List.mem_singleton] at hstl
                rw [hstl]
                exact hrne
            · intro t ht hc2
              exact a4 t (mem_clearTimeout.1 ht).1 hc2
        · obtain ⟨b1, b2, tm, b3, b4⟩ := hB
          right
          have hcorr : t'.corrId ≠ c := b2 t' ht'm
          refine ⟨?_, ?_, tm, ?_, b4⟩
          · show mapGet (mapDelete sf.pendingRPCRequests t'.corrId) c = none
            rw [mapGet_mapDelete_ne _ (fun hh => hcorr hh.symm)]
            exact b1
          · intro t ht
            exact b2 t (mem_clearTimeout.1 ht).1
          · exact List.mem_append_left _ b3
      · rw [if_neg hd]
        exact h
  | send q' b' o' f' p' =>
    have hcc : effectiveCorrelationId o'.correlationId f' ≠ c := by simpa [avoids] using hav
    have hcc' : c ≠ effectiveCorrelationId o'.correlationId f' := fun hh => hcc hh.symm
    show PhaseA c r tid T dl (match sendRPC cfg sf q' b' o' f' p' with
      | .ok (s', _) => s' | .error _ => sf) ∨
      PhaseB c r T dl (match sendRPC cfg sf q' b' o' f' p' with
      | .ok (s', _) => s' | .error _ => sf)
    rcases hsr : sendRPC cfg sf q' b' o' f' p' with err | pr
    · simp only [hsr]
      exact h
    · rcases pr with ⟨s2, r2⟩
      simp only [hsr]
      unfold sendRPC at hsr
      by_cases hcond : (!sf.channel || !truthyStr sf.replyQueue) = true
      · rw [if_pos hcond] at hsr
        cases hsr
      · rw [if_neg hcond] at hsr
        have hrlt : (⟨tid, r, c, T, dl⟩ : Timer) ∈ sf.timers → sf.nextReqIdx ≠ r :=
          fun hmem => (Nat.ne_of_lt (hInv.timerReqLt _ hmem)).symm
        rcases p' with _ | _
        · simp only [Bool.false_eq_true, if_false, Except.ok.injEq, Prod.mk.injEq] at hsr
          obtain ⟨h1, _⟩ := hsr
          rw [← h1]
          have htEq : clearTimeout (sf.timers ++
              [⟨sf.nextTimerId, sf.nextReqIdx, effectiveCorrelationId o'.correlationId f',
                effectiveTimeout o'.timeout, sf.now + effectiveTimeout o'.timeout⟩])
              sf.nextTimerId = sf.timers :=
            clearTimeout_append_fresh
              (fun t ht => Nat.ne_of_lt (hInv.timerIdLt t ht)) _ rfl
          rcases h with hA | hB
          · obtain ⟨a1, a2, a3, a4⟩ := hA
            left
            refine ⟨?_, ?_, ?_, ?_⟩
            · show mapGet (mapDelete (mapSet sf.pendingRPCRequests
                (effectiveCorrelationId o'.correlationId f')
                ⟨sf.nextReqIdx, sf.nextTimerId⟩)
                (effectiveCorrelationId o'.correlationId f')) c = some ⟨r, tid⟩
              rw [mapGet_mapDelete_ne _ hcc', mapGet_mapSet_ne _ _ hcc']
              exact a1
            · show _ ∈ clearTimeout _ _
              rw [htEq]
              exact a2
            · intro stl hstl
              rcases List.mem_append.1 hstl with hstl | hstl
              · exact a3 stl hstl
              · simp only [List.mem_singleton] at hstl
                rw [hstl]
                exact hrlt a2
            · intro t ht hc2
              rw [htEq] at ht
              exact a4 t ht hc2
          · obtain ⟨b1, b2, tm, b3, b4⟩ := hB
            right
            refine ⟨?_, ?_, tm, ?_, b4⟩
            · show mapGet (mapDelete (mapSet sf.pendingRPCRequests
                (effectiveCorrelationId o'.correlationId f')
                ⟨sf.nextReqIdx, sf.nextTimerId⟩)
                (effectiveCorrelationId o'.correlationId f')) c = none
              rw [mapGet_mapDelete_ne _ hcc', mapGet_mapSet_ne _ _ hcc']
              exact b1
            · intro t ht
              rw [htEq] at ht
              exact b2 t ht
            · exact List.mem_append_left _ b3
        · have hch : sf.channel = true := by
            rcases hb : sf.channel
            · rw [hb] at hcond
              simp at hcond
            · rfl
          simp only [if_true, publish, hch, Bool.not_true, Bool.false_eq_true, if_false,
            Except.ok.injEq, Prod.mk.injEq] at hsr
          obtain ⟨h1, _⟩ := hsr
          rw [← h1]
          rcases h with hA | hB
          · obtain ⟨a1, a2, a3, a4⟩ := hA
            left
            refine ⟨?_, List.mem_append_left _ a2, a3, ?_⟩
            · show mapGet (mapSet sf.pendingRPCRequests
                (effectiveCorrelationId o'.correlationId f')
                ⟨sf.nextReqIdx, sf.nextTimerId⟩) c = some ⟨r, tid⟩
              rw [mapGet_mapSet_ne _ _ hcc']
              exact a1
            · intro t ht hc2
              rcases List.mem_append.1 ht with ht | ht
              · exact a4 t ht hc2
              · simp only [List.mem_singleton] at ht
                rw [ht] at hc2
                exact absurd hc2 hcc
          · obtain ⟨b1, b2, tm, b3, b4⟩ := hB
            right
            refine ⟨?_, ?_, tm, b3, b4⟩
            · show mapGet (mapSet sf.pendingRPCRequests
                (effectiveCorrelationId o'.correlationId f')
                ⟨sf.nextReqIdx, sf.nextTimerId⟩) c = none
              rw [mapGet_mapSet_ne _ _ hcc']
              exact b1
            · intro t ht
              rcases List.mem_append.1 ht with ht | ht
              · exact b2 t ht
              · simp only [List.mem_singleton] at ht
                rw [ht]
                exact hcc

theorem phase_run (cfg : Config) {sf : RMQState} {c : String} {r tid T dl : Nat}
    (hInv : Inv sf) {es : List Event} (hav : ∀ e ∈ es, avoids c e = true)
    (h : PhaseA c r tid T dl sf ∨ PhaseB c r T dl sf) :
    PhaseA c r tid T dl (run cfg sf es) ∨ PhaseB c r T dl (run cfg sf es) := by
  induction es generalizing sf with
  | nil => exact h
  | cons e rest ih =>
    exact ih (inv_step hInv e) (fun e' he' => hav e' (List.mem_cons_of_mem _ he'))
      (phase_step hInv (hav e (List.mem_cons_self _ _)) h)

/-- C3: a `sendRPC` call with effective timeout `T` (30000 ms when
`options.timeout` is unspecified) whose reply never arrives (no reply event
for its correlation id, no further registration under it, no `close()`):
along any such continuation the request is either still waiting —
registered, unsettled, its timer scheduled with deadline `registration time
+ T` — or its entry has been removed and its promise rejected with the
RPC-timeout error at a time no earlier than `registration time + T` (the
timer can only fire once its deadline has passed).  Once the entry is gone,
a late reply for that correlation id is discarded without error (the state
is completely unchanged), and the promise is never settled a second time. -/
theorem rpc_timeout_behavior (cfg : Config) (s : RMQState) (q b fresh : String)
    (opts : RPCOptions) (hInv : Inv s) (hNo : NoOrphan s)
    (hch : s.channel = true) (hrq : truthyStr s.replyQueue = true)
    (hc0 : mapGet s.pendingRPCRequests (effectiveCorrelationId opts.correlationId fresh) = none)
    {s1 : RMQState} {r : Nat}
    (hsend : sendRPC cfg s q b opts fresh true = .ok (s1, r))
    (es : List Event)
    (hav : ∀ e ∈ es, avoids (effectiveCorrelationId opts.correlationId fresh) e = true) :
    (opts.timeout = none → effectiveTimeout opts.timeout = 30000) ∧
    (PhaseA (effectiveCorrelationId opts.correlationId fresh) r s.nextTimerId
        (effectiveTimeout opts.timeout) (s.now + effectiveTimeout opts.timeout)
        (run cfg s1 es) ∨
     PhaseB (effectiveCorrelationId opts.correlationId fresh) r
        (effectiveTimeout opts.timeout) (s.now + effectiveTimeout opts.timeout)
        (run cfg s1 es)) ∧
    (∀ raw, mapGet (run cfg s1 es).pendingRPCRequests
        (effectiveCorrelationId opts.correlationId fresh) = none →
      handleRPCReply (run cfg s1 es)
        (some (effectiveCorrelationId opts.correlationId fresh)) raw = run cfg s1 es) ∧
    (∀ stl1 ∈ (run cfg s1 es).settled, ∀ stl2 ∈ (run cfg s1 es).settled,
      stl1.reqIdx = r → stl2.reqIdx = r → stl1 = stl2) := by
  have hInv1 : Inv s1 := inv_sendRPC hInv hsend
  unfold sendRPC at hsend
  rw [if_neg (by simp [hch, hrq])] at hsend
  simp only [if_true, publish, hch, Bool.not_true, Bool.false_eq_true, if_false,
    Except.ok.injEq, Prod.mk.injEq] at hsend
  obtain ⟨h1, h2⟩ := hsend
  have hA0 : PhaseA (effectiveCorrelationId opts.correlationId fresh) r s.nextTimerId
      (effectiveTimeout opts.timeout) (s.now + effectiveTimeout opts.timeout) s1 := by
    rw [← h1, ← h2]
    refine ⟨?_, ?_, ?_, ?_⟩
    · exact mapGet_mapSet_self _ _ _
    · exact List.mem_append_right _ (List.mem_singleton.2 rfl)
    · intro stl hstl
      exact Nat.ne_of_lt (hInv.settledLt stl hstl)
    · intro t ht hc2
      rcases List.mem_append.1 ht with ht | ht
      · exfalso
        obtain ⟨p, hp, hpe⟩ := hNo t ht
        obtain ⟨t2, ht2m, f1, f2, f3⟩ := hInv.pendingTimer p hp
        have ht2t : t2 = t :=
          List.inj_on_of_nodup_map hInv.timersIdNodup ht2m ht (by rw [f1, hpe])
        have hpk : p.1 = effectiveCorrelationId opts.correlationId fresh := by
          rw [← f3, ht2t, hc2]
        have hm : mapGet s.pendingRPCRequests p.1 = some p.2 := by
          rw [← Prod.mk.eta (p := p)] at hp
          exact mapGet_of_mem_nodupKeys hInv.pendingKeyNodup hp
        rw [hpk, hc0] at hm
        cases hm
      · simp only [List.mem_singleton] at ht
        rw [ht]
  have hphase := phase_run cfg hInv1 hav (Or.inl hA0)
  refine ⟨fun hnone => by rw [hnone]; rfl, hphase, ?_, ?_⟩
  · intro raw hn
    exact handleRPCReply_unknown hn raw
  · intro stl1 h1' stl2 h2' e1 e2
    have hInvf : Inv (run cfg s1 es) := inv_run hInv1 es
    exact List.inj_on_of_nodup_map hInvf.settledNodup h1' h2' (by rw [e1, e2])

/-- Witness for C3: a request with timeout 5 and no reply; time advances to
its deadline and its timer fires. -/
theorem rpc_timeout_behavior_witness :
    mapGet (connectedState "rq").pendingRPCRequests
      (effectiveCorrelationId (some "X") "u") = none ∧
    sendRPC sampleCfg (connectedState "rq") "q" "m" ⟨some 5, some "X"⟩ "u" true
      = .ok (c3S1, 0) ∧
    (((⟨some 5, some "X"⟩ : RPCOptions).timeout = none →
        effectiveTimeout (some 5) = 30000) ∧
     (PhaseA (effectiveCorrelationId (some "X") "u") 0 (connectedState "rq").nextTimerId
        (effectiveTimeout (some 5))
        ((connectedState "rq").now + effectiveTimeout (some 5))
        (run sampleCfg c3S1 [.tick 5, .fire 0]) ∨
      PhaseB (effectiveCorrelationId (some "X") "u") 0 (effectiveTimeout (some 5))
        ((connectedState "rq").now + effectiveTimeout (some 5))
        (run sampleCfg c3S1 [.tick 5, .fire 0])) ∧
     (∀ raw, mapGet (run sampleCfg c3S1 [.tick 5, .fire 0]).pendingRPCRequests
        (effectiveCorrelationId (some "X") "u") = none →
       handleRPCReply (run sampleCfg c3S1 [.tick 5, .fire 0])
         (some (effectiveCorrelationId (some "X") "u")) raw
         = run sampleCfg c3S1 [.tick 5, .fire 0]) ∧
     (∀ stl1 ∈ (run sampleCfg c3S1 [.tick 5, .fire 0]).settled,
       ∀ stl2 ∈ (run sampleCfg c3S1 [.tick 5, .fire 0]).settled,
       stl1.reqIdx = 0 → stl2.reqIdx = 0 → stl1 = stl2)) :=
  ⟨rfl, rfl,
   rpc_timeout_behavior sampleCfg (connectedState "rq") "q" "m" "u" ⟨some 5, some "X"⟩
     (inv_connectedState "rq") (noOrphan_connectedState "rq") rfl (by decide) rfl
     rfl [.tick 5, .fire 0] (by decide)⟩

theorem some_getD_of_truthy {c : Option String} (h : (!truthyStr c) ≠ true) :
    some (c.getD "") = c := by
  rcases c with _ | x
  · simp [truthyStr] at h
  · rfl

theorem resolved_step_deliver {cfg : Config} {s : RMQState} {e : Event} {stl : Settlement}
    (h : stl ∈ (step cfg s e).settled) (hnot : stl ∉ s.settled) {v : String}
    (hout : stl.outcome = .resolved v) :
    ∃ raw, e = .deliver (some stl.corrId) raw ∧ jsonParse raw = some v := by
  cases e with
  | tick d => exact absurd h hnot
  | closeEv cf nf =>
    exfalso
    have h' : stl ∈ (close s cf nf).1.settled := h
    have hs : (close s cf nf).1.settled = s.settled ++ s.pendingRPCRequests.map
        (fun p => (⟨p.2.reqIdx, p.1, .rejected .connectionClosed, s.now⟩ : Settlement)) := by
      rw [close_eq]
      split_ifs
      · exact drainedState_settled s
      · exact drainedState_settled s
      · exact drainedState_settled s
    rw [hs] at h'
    rcases List.mem_append.1 h' with h' | h'
    · exact hnot h'
    · obtain ⟨p, hp, hpe⟩ := List.mem_map.1 h'
      rw [← hpe] at hout
      exact Outcome.noConfusion hout
  | fire tid =>
    exfalso
    have h' : stl ∈ (fireTimer s tid).settled := h
    unfold fireTimer at h'
    rcases hf : s.timers.find? (fun t => t.id = tid) with _ | t
    · simp only [hf] at h'
      exact hnot h'
    · simp only [hf] at h'
      by_cases hd : t.deadline ≤ s.now
      · rw [if_pos hd] at h'
        rcases List.mem_append.1 h' with h' | h'
        · exact hnot h'
        · simp only [List.mem_singleton] at h'
          rw [h'] at hout
          exact Outcome.noConfusion hout
      · rw [if_neg hd] at h'
        exact hnot h'
  | send q' b' o' f' p' =>
    exfalso
    have h' : stl ∈ (match sendRPC cfg s q' b' o' f' p' with
      | .ok (s', _) => s' | .error _ => s).settled := h
    rcases hsr : sendRPC cfg s q' b' o' f' p' with err | pr
    · simp only [hsr] at h'
      exact hnot h'
    · rcases pr with ⟨s2, r2⟩
      simp only [hsr] at h'
      unfold sendRPC at hsr
      by_cases hcond : (!s.channel || !truthyStr s.replyQueue) = true
      · rw [if_pos hcond] at hsr
        cases hsr
      · rw [if_neg hcond] at hsr
        rcases p' with _ | _
        · simp only [Bool.false_eq_true, if_false, Except.ok.injEq, Prod.mk.injEq] at hsr
          obtain ⟨h1, _⟩ := hsr
          rw [← h1] at h'
          rcases List.mem_append.1 h' with h' | h'
          · exact hnot h'
          · simp only [List.mem_singleton] at h'
            rw [h'] at hout
            exact Outcome.noConfusion hout
        · have hch : s.channel = true := by
            rcases hb : s.channel
            · rw [hb] at hcond
              simp at hcond
            · rfl
          simp only [if_true, publish, hch, Bool.not_true, Bool.false_eq_true, if_false,
            Except.ok.injEq, Prod.mk.injEq] at hsr
          obtain ⟨h1, _⟩ := hsr
          rw [← h1] at h'
          exact hnot h'
  | deliver c raw =>
    have h' : stl ∈ (handleRPCReply s c raw).settled := h
    unfold handleRPCReply at h'
    by_cases hb : (!truthyStr c) = true
    · rw [if_pos hb] at h'
      exact absurd h' hnot
    · rw [if_neg hb] at h'
      rcases hget : mapGet s.pendingRPCRequests (c.getD "") with _ | e'
      · simp only [hget] at h'
        exact absurd h' hnot
      · simp only [hget] at h'
        rcases hparse : jsonParse raw with _ | v'
        · simp only [hparse] at h'
          rcases List.mem_append.1 h' with h' | h'
          · exact absurd h' hnot
          · exfalso
            simp only [List.mem_singleton] at h'
            rw [h'] at hout
            exact Outcome.noConfusion hout
        · simp only [hparse] at h'
          rcases List.mem_append.1 h' with h' | h'
          · exact absurd h' hnot
          · simp only [List.mem_singleton] at h'
            have hcv : v' = v := by
              rw [h'] at hout
              simpa using hout
            refine ⟨raw, ?_, by rw [hparse, hcv]⟩
            have hc2 : stl.corrId = c.getD "" := by
              rw [h']
            rw [hc2, some_getD_of_truthy hb]

theorem resolved_from_deliver {cfg : Config} {es : List Event} :
    ∀ {s : RMQState} {stl : Settlement},
    stl ∈ (run cfg s es).settled → stl ∉ s.settled → ∀ {v : String},
    stl.outcome = .resolved v →
    ∃ raw, Event.deliver (some stl.corrId) raw ∈ es ∧ jsonParse raw = some v := by
  induction es with
  | nil =>
    intro s stl h hnot v hout
    exact absurd h hnot
  | cons e rest ih =>
    intro s stl h hnot v hout
    by_cases hmem : stl ∈ (step cfg s e).settled
    · obtain ⟨raw, hre, hp⟩ := resolved_step_deliver hmem hnot hout
      exact ⟨raw, by rw [hre]; exact List.mem_cons_self _ _, hp⟩
    · have h' : stl ∈ (run cfg (step cfg s e) rest).settled := h
      obtain ⟨raw, hre, hp⟩ := ih h' hmem hout
      exact ⟨raw, List.mem_cons_of_mem _ hre, hp⟩

/-- C1: with pairwise-distinct correlation ids among all registrations, each
promise resolves only with the reply carrying its own correlation id: every
resolved settlement originates from a delivered reply event whose
correlation id equals the settlement's; the settlement's correlation id is
the id under which that request was registered; and the request a reply
resolves is the unique one registered under the reply's id — regardless of
registration order and reply arrival order. -/
theorem rpc_replies_resolve_matching_request (cfg : Config) (rq : String) (es : List Event)
    (hN : ((run cfg (connectedState rq) es).requests.map RequestRec.corrId).Nodup) :
    ∀ stl ∈ (run cfg (connectedState rq) es).settled, ∀ v, stl.outcome = .resolved v →
      (∃ raw, Event.deliver (some stl.corrId) raw ∈ es ∧ jsonParse raw = some v) ∧
      (∀ qr ∈ (run cfg (connectedState rq) es).requests,
        (qr.reqIdx = stl.reqIdx → qr.corrId = stl.corrId) ∧
        (qr.corrId = stl.corrId → qr.reqIdx = stl.reqIdx)) := by
  intro stl hstl v hout
  have hInv : Inv (run cfg (connectedState rq) es) := inv_run (inv_connectedState rq) es
  obtain ⟨q0, hq0, e1, e2⟩ := hInv.settledReq stl hstl
  refine ⟨resolved_from_deliver hstl (by simp [connectedState]) hout, ?_⟩
  intro qr hqr
  constructor
  · intro hre
    have hq : qr = q0 :=
      List.inj_on_of_nodup_map hInv.requestsNodup hqr hq0 (by rw [hre, e1])
    rw [hq, e2]
  · intro hce
    have hq : qr = q0 := List.inj_on_of_nodup_map hN hqr hq0 (by rw [hce, e2])
    rw [hq, e1]

/-- Witness for C1 on the concrete scenario: requests registered in the
order "B", "A"; the replies arrive in the order "A", "B"; request 1 (id
"A") resolves with the "A" reply and request 0 (id "B") with the "B"
reply. -/
theorem rpc_replies_resolve_matching_request_witness :
    ((run sampleCfg (connectedState "rq") traceBA).requests.map RequestRec.corrId).Nodup ∧
    ((run sampleCfg (connectedState "rq") traceBA).settled.map
      (fun stl => (stl.reqIdx, stl.corrId, stl.outcome))
      = [(1, "A", .resolved "ra"), (0, "B", .resolved "rb")]) ∧
    (∀ stl ∈ (run sampleCfg (connectedState "rq") traceBA).settled, ∀ v,
      stl.outcome = .resolved v →
      (∃ raw, Event.deliver (some stl.corrId) raw ∈ traceBA ∧ jsonParse raw = some v) ∧
      (∀ qr ∈ (run sampleCfg (connectedState "rq") traceBA).requests,
        (qr.reqIdx = stl.reqIdx → qr.corrId = stl.corrId) ∧
        (qr.corrId = stl.corrId → qr.reqIdx = stl.reqIdx))) :=
  ⟨by decide, by decide,
   rpc_replies_resolve_matching_request sampleCfg "rq" traceBA (by decide)⟩

end RMQ
